import Mathlib

/-!
# Verification development for the IOCP web server

Shallow embedding of the incremental HTTP request parser
(`src/http_parser.cpp`), the slotted timer wheel (`src/timer.cpp`) and the
server core (`src/iocp_server.cpp`): connection registry, idle timeout,
teardown, request dispatch, response building and the completion handlers,
followed by theorems about them.

Conventions of the embedding:
* a `std::string` / `char` buffer is a `List Char` (one `Char` per byte);
* `std::unordered_map<K, V>` is an association list with unique keys;
* `size_t` / `uint64_t` counters are `Nat`, reduced modulo `2 ^ 64` where the
  code can wrap;
* a member function that mutates `this` returns the new object next to its
  result.
-/

namespace WebServer

/-- A byte buffer (`std::string`, or `const char*` with its length). -/
abbrev Bytes := List Char

/-! ## `http_parser.hpp` -/

/-- `enum class HttpMethod`. -/
inductive HttpMethod where
  | UNKNOWN
  | GET
  | POST
  deriving DecidableEq, Repr

/-- `enum class ParseStatus`. -/
inductive ParseStatus where
  | SUCCESS
  | INCOMPLETE
  | FAILED
  deriving DecidableEq, Repr

/-- `struct HttpRequest`; `headers` is the `unordered_map` as an association list. -/
structure HttpRequest where
  method : HttpMethod
  uri : Bytes
  version : Bytes
  headers : List (Bytes × Bytes)
  body : Bytes
  deriving DecidableEq, Repr

/-- `enum class HttpParser::State`. -/
inductive State where
  | METHOD
  | URI
  | VERSION
  | HEADER_NAME
  | HEADER_VALUE
  | BODY
  | COMPLETE
  deriving DecidableEq, Repr

/-- Private members of `class HttpParser`. -/
structure HttpParser where
  state_ : State
  request_ : HttpRequest
  current_header_ : Bytes
  content_length_ : Nat
  bytes_remaining_ : Nat
  deriving DecidableEq, Repr

/-- `SIZE_MAX + 1` for the 64-bit `size_t`. -/
def SIZE_MOD : Nat := 2 ^ 64

/-- `ULONG_MAX` of the target (Windows, LLP64: `unsigned long` has 32 bits). -/
def ULONG_MAX : Nat := 4294967295

/-! ## Standard-library helpers used by the parser -/

/-- `m[key] = value` on an `unordered_map`: overwrite the entry or add one. -/
def mapAssign (m : List (Bytes × Bytes)) (key value : Bytes) : List (Bytes × Bytes) :=
  match m with
  | [] => [(key, value)]
  | (k, v) :: rest => if k = key then (k, value) :: rest else (k, v) :: mapAssign rest key value

/-- `m.find(key)` on an `unordered_map`. -/
def mapFind (m : List (Bytes × Bytes)) (key : Bytes) : Option Bytes :=
  match m with
  | [] => none
  | (k, v) :: rest => if k = key then some v else mapFind rest key

/-- Membership in the character set `" \t"`. -/
def isBlank (c : Char) : Bool := c == ' ' || c == '\t'

/-- `value.erase(0, value.find_first_not_of(" \t"))`: when every character is
blank `find_first_not_of` is `npos` and the whole string is erased. -/
def eraseLeadingBlanks (value : Bytes) : Bytes := value.dropWhile isBlank

/-- `value.erase(value.find_last_not_of(" \t") + 1)`: when every character is
blank `npos + 1` is `0` and the whole string is erased. -/
def eraseTrailingBlanks (value : Bytes) : Bytes := (value.reverse.dropWhile isBlank).reverse

/-- The two `erase` calls of the `HEADER_VALUE` case, in order. -/
def trimBlanks (value : Bytes) : Bytes := eraseTrailingBlanks (eraseLeadingBlanks value)

/-- `std::isspace` in the "C" locale. -/
def isSpaceC (c : Char) : Bool :=
  c == ' ' || c == '\t' || c == '\n' || c == '\x0b' || c == '\x0c' || c == '\r'

/-- Value of a run of decimal digits. -/
def digitsValue (ds : Bytes) : Nat := ds.foldl (fun acc d => 10 * acc + (d.toNat - 48)) 0

/-- `std::stoul(str)` (base 10): skip leading white space, accept one sign, read
the longest run of digits. `none` stands for the exception thrown when there is
no digit (`invalid_argument`) or the value exceeds `ULONG_MAX` (`out_of_range`);
a leading minus negates the value in `unsigned long` arithmetic. -/
def stoul (str : Bytes) : Option Nat :=
  let s1 := str.dropWhile isSpaceC
  let neg := s1.head? == some '-'
  let s2 := if s1.head? == some '-' || s1.head? == some '+' then s1.tail else s1
  let ds := s2.takeWhile Char.isDigit
  if ds.isEmpty then none
  else if digitsValue ds > ULONG_MAX then none
  else if neg then some ((ULONG_MAX + 1 - digitsValue ds) % (ULONG_MAX + 1))
  else some (digitsValue ds)

/-! ## `http_parser.cpp` -/

/-- `HttpRequest{}`: the default member initialisers. -/
def HttpRequest.default : HttpRequest :=
  { method := .UNKNOWN, uri := [], version := [], headers := [], body := [] }

/-- `HttpParser::HttpParser()`. -/
def HttpParser.new : HttpParser :=
  { state_ := .METHOD, request_ := HttpRequest.default, current_header_ := [],
    content_length_ := 0, bytes_remaining_ := 0 }

/-- `HttpParser::reset()`. -/
def HttpParser.reset (_p : HttpParser) : HttpParser :=
  { state_ := .METHOD, request_ := HttpRequest.default, current_header_ := [],
    content_length_ := 0, bytes_remaining_ := 0 }

/-- Outcome of one iteration of the `for` loop of `HttpParser::parse`: either
the `switch` ends with `break` and the loop goes on with the updated parser, or
the function returns a status from inside the loop. -/
inductive Step where
  | next (p : HttpParser)
  | ret (status : ParseStatus)
  deriving DecidableEq, Repr

/-- Body of the `for` loop of `HttpParser::parse` for the byte `c`. -/
def HttpParser.step (p : HttpParser) (c : Char) : Step :=
  match p.state_ with
  | .METHOD =>
    if c = ' ' then
      if p.current_header_ = "GET".toList then
        .next { p with request_ := { p.request_ with method := .GET },
                       current_header_ := [], state_ := .URI }
      else if p.current_header_ = "POST".toList then
        .next { p with request_ := { p.request_ with method := .POST },
                       current_header_ := [], state_ := .URI }
      else .ret .FAILED
    else .next { p with current_header_ := p.current_header_ ++ [c] }
  | .URI =>
    if c = ' ' then .next { p with state_ := .VERSION }
    else .next { p with request_ := { p.request_ with uri := p.request_.uri ++ [c] } }
  | .VERSION =>
    if c = '\r' then .next { p with state_ := .HEADER_NAME }
    else if c ≠ '\n' then
      .next { p with request_ := { p.request_ with version := p.request_.version ++ [c] } }
    else .next p
  | .HEADER_NAME =>
    if c = ':' then .next { p with state_ := .HEADER_VALUE }
    else if c = '\r' then
      if p.request_.method = .POST ∧ p.content_length_ > 0 then
        .next { p with bytes_remaining_ := p.content_length_, state_ := .BODY }
      else .next { p with state_ := .COMPLETE }
    else .next { p with current_header_ := p.current_header_ ++ [c] }
  | .HEADER_VALUE =>
    if c = '\r' then
      let value := trimBlanks p.current_header_
      if p.current_header_ = "Content-Length".toList then
        match stoul value with
        | none => .ret .FAILED
        | some n =>
          .next { p with content_length_ := n,
                         request_ := { p.request_ with
                           headers := mapAssign p.request_.headers p.current_header_ value },
                         current_header_ := [], state_ := .HEADER_NAME }
      else
        .next { p with request_ := { p.request_ with
                         headers := mapAssign p.request_.headers p.current_header_ value },
                       current_header_ := [], state_ := .HEADER_NAME }
    else if c ≠ '\n' then .next { p with current_header_ := p.current_header_ ++ [c] }
    else .next p
  | .BODY =>
    let remaining := (p.bytes_remaining_ + SIZE_MOD - 1) % SIZE_MOD
    let p1 := { p with request_ := { p.request_ with body := p.request_.body ++ [c] },
                       bytes_remaining_ := remaining }
    if remaining = 0 then .next { p1 with state_ := .COMPLETE } else .next p1
  | .COMPLETE => .ret .SUCCESS

/-- `HttpParser::parse(data, length)`: the returned status and the parser after
the call. -/
def HttpParser.parse (p : HttpParser) (data : Bytes) : ParseStatus × HttpParser :=
  match data with
  | [] => (if p.state_ = .COMPLETE then .SUCCESS else .INCOMPLETE, p)
  | c :: rest =>
    match p.step c with
    | .ret status => (status, p)
    | .next p1 => HttpParser.parse p1 rest

/-- `HttpParser::request()`. -/
def HttpParser.request (p : HttpParser) : HttpRequest := p.request_

/-- The parser `p` given `f`, then each fragment of `rest`, by successive
`parse` calls with no `reset()` in between: the status of the last call and
the parser after it. -/
def feedFragments (p : HttpParser) (f : Bytes) (rest : List Bytes) : ParseStatus × HttpParser :=
  match rest with
  | [] => p.parse f
  | g :: gs => feedFragments (p.parse f).2 g gs

/-- The bytes of all fragments in order. -/
def concatFragments (f : Bytes) (rest : List Bytes) : Bytes :=
  match rest with
  | [] => f
  | g :: gs => f ++ concatFragments g gs

/-- No `parse` call before the last one returns `FAILED`. -/
def earlierCallsNotFailed (p : HttpParser) (f : Bytes) (rest : List Bytes) : Bool :=
  match rest with
  | [] => true
  | g :: gs => (p.parse f).1 != .FAILED && earlierCallsNotFailed (p.parse f).2 g gs

/-- The header lines `Name: Value\r\n` of a request, in order. -/
def headerLines (hs : List (Bytes × Bytes)) : Bytes :=
  match hs with
  | [] => []
  | h :: t => h.1 ++ ": ".toList ++ h.2 ++ "\r\n".toList ++ headerLines t

/-- The request `GET <u> <v>\r\n`, the header lines, and the closing `\r\n`. -/
def getRequest (u v : Bytes) (hs : List (Bytes × Bytes)) : Bytes :=
  "GET ".toList ++ u ++ " ".toList ++ v ++ "\r\n".toList ++ headerLines hs ++ "\r\n".toList

/-! ## `timer.hpp`, `timer.cpp` -/

/-- `TimerWheel::TimeoutCallback` (`std::function<void()>`): a callback is
identified by a label; what invoking it does is up to whoever registered it. -/
abbrev TimeoutCallback := Nat

/-- `struct TimerWheel::TimerTask`. -/
structure TimerTask where
  id : Nat
  callback : TimeoutCallback
  deriving DecidableEq, Repr

/-- Data members of `class TimerWheel` read or written by `AddTimeout`,
`CancelTimeout` and the loop body of `RunLoop`. A slot of `wheel_` is the
`unordered_map<uint64_t, TimerTask>` as the list of its tasks, the key of a task
being its own `id`; `interval_` is in milliseconds. -/
structure TimerWheel where
  wheel_ : List (List TimerTask)
  slots_ : Nat
  interval_ : Int
  current_slot_ : Nat
  next_id_ : Nat
  deriving DecidableEq, Repr

/-- `UINT64_MAX + 1`: `next_id_` is a `uint64_t`. -/
def UINT64_MOD : Nat := 2 ^ 64

/-- `TimerWheel::TimerWheel(slots, interval)`; `none` stands for the
`invalid_argument` thrown for zero slots or a non-positive interval. -/
def TimerWheel.new (slots : Nat) (interval : Int) : Option TimerWheel :=
  if slots = 0 then none
  else if interval ≤ 0 then none
  else some { wheel_ := List.replicate slots [], slots_ := slots, interval_ := interval,
              current_slot_ := 0, next_id_ := 0 }

/-- `slot.emplace(task.id, task)`: nothing is inserted when the key is present. -/
def slotEmplace (slot : List TimerTask) (task : TimerTask) : List TimerTask :=
  if slot.any (fun t => t.id == task.id) then slot else slot ++ [task]

/-- `slot.erase(id)`. -/
def slotErase (slot : List TimerTask) (id : Nat) : List TimerTask :=
  slot.filter (fun t => t.id != id)

/-- One iteration of the `while` loop of `TimerWheel::RunLoop` (a tick): the tasks
of the current slot are moved out, the slot pointer advances, and the callbacks
of the returned tasks are then invoked, in order, outside the lock. -/
def TimerWheel.tick (w : TimerWheel) : TimerWheel × List TimerTask :=
  let tasks_to_run := w.wheel_.getD w.current_slot_ []
  ({ w with wheel_ := w.wheel_.set w.current_slot_ [],
            current_slot_ := (w.current_slot_ + 1) % w.slots_ }, tasks_to_run)

/-- `(timeout + interval_ - 1ms) / interval_` converted to `size_t`. -/
def TimerWheel.ticksFor (w : TimerWheel) (timeout : Int) : Nat :=
  (Int.tdiv (timeout + w.interval_ - 1) w.interval_).toNat

/-- `TimerWheel::AddTimeout(timeout, cb)`: the wheel after the call, the returned
id, and the callbacks invoked during the call. -/
def TimerWheel.AddTimeout (w : TimerWheel) (timeout : Int) (cb : TimeoutCallback) :
    TimerWheel × Nat × List TimeoutCallback :=
  if timeout ≤ 0 then
    ({ w with next_id_ := (w.next_id_ + 1) % UINT64_MOD }, (w.next_id_ + 1) % UINT64_MOD, [cb])
  else
    let id := (w.next_id_ + 1) % UINT64_MOD
    let ticks := w.ticksFor timeout
    let target_slot := (w.current_slot_ + ticks) % w.slots_
    ({ w with next_id_ := id,
              wheel_ := w.wheel_.set target_slot
                (slotEmplace (w.wheel_.getD target_slot []) { id := id, callback := cb }) },
      id, [])

/-- The `for` loop of `TimerWheel::CancelTimeout`: erase `id` from the first slot
that holds it, then `break`. -/
def cancelIn (wheel : List (List TimerTask)) (id : Nat) : List (List TimerTask) :=
  match wheel with
  | [] => []
  | slot :: rest =>
    if slot.any (fun t => t.id == id) then slotErase slot id :: rest
    else slot :: cancelIn rest id

/-- `TimerWheel::CancelTimeout(id)`. -/
def TimerWheel.CancelTimeout (w : TimerWheel) (id : Nat) : TimerWheel :=
  if id = 0 then w else { w with wheel_ := cancelIn w.wheel_ id }

/-! ### Sequential model of the wheel

The clock thread and the callers of `AddTimeout` / `CancelTimeout` exclude each
other through `mutex_`, so a history of the wheel is a sequence of the three
operations below. A callback that calls back into the wheel does so after the
tick released the lock: its calls are the operations that follow the tick. -/

/-- An operation on the wheel. -/
inductive Op where
  | add (timeout : Int) (cb : TimeoutCallback)
  | cancel (id : Nat)
  | tick
  deriving DecidableEq, Repr

/-- An invocation of a callback: by `AddTimeout` itself, or of a task's callback
by a tick. -/
inductive Event where
  | inline (cb : TimeoutCallback)
  | fired (task : TimerTask)
  deriving DecidableEq, Repr

/-- The callback an event invokes. -/
def Event.callback (e : Event) : TimeoutCallback :=
  match e with
  | .inline cb => cb
  | .fired task => task.callback

/-- One operation: the wheel after it and the callbacks it invoked, in order. -/
def TimerWheel.applyOp (w : TimerWheel) (op : Op) : TimerWheel × List Event :=
  match op with
  | .add timeout cb => ((w.AddTimeout timeout cb).1, (w.AddTimeout timeout cb).2.2.map Event.inline)
  | .cancel id => (w.CancelTimeout id, [])
  | .tick => (w.tick.1, w.tick.2.map Event.fired)

/-- A sequence of operations: the wheel after it and all invocations, in order. -/
def TimerWheel.run (w : TimerWheel) (ops : List Op) : TimerWheel × List Event :=
  match ops with
  | [] => (w, [])
  | op :: rest => ((TimerWheel.run (w.applyOp op).1 rest).1,
                   (w.applyOp op).2 ++ (TimerWheel.run (w.applyOp op).1 rest).2)

/-- The tasks with the given id whose callback a tick invoked, in order. -/
def firedOf (id : Nat) (evs : List Event) : List TimerTask :=
  match evs with
  | [] => []
  | .inline _ :: rest => firedOf id rest
  | .fired task :: rest => if task.id = id then task :: firedOf id rest else firedOf id rest

/-- Number of ticks in a sequence of operations. -/
def countTicks (ops : List Op) : Nat :=
  match ops with
  | [] => 0
  | .tick :: rest => countTicks rest + 1
  | _ :: rest => countTicks rest

/-- The task with the given id is stored in some slot. -/
def TimerWheel.holds (w : TimerWheel) (id : Nat) : Bool :=
  w.wheel_.any (fun slot => slot.any (fun t => t.id == id))

/-- What the code maintains on a wheel: `wheel_` has `slots_` slots, of which
there is at least one, `current_slot_` is one of them, the interval is
positive, and the ids of the stored tasks were issued already. -/
structure TimerWheel.WellFormed (w : TimerWheel) : Prop where
  len : w.wheel_.length = w.slots_
  pos : 0 < w.slots_
  cur : w.current_slot_ < w.slots_
  interval_pos : 0 < w.interval_
  issued : ∀ slot ∈ w.wheel_, ∀ t ∈ slot, t.id ≤ w.next_id_

/-- The wheel of the timer tests and of the server: 60 slots, 10 ms apart. -/
def wheel60 : TimerWheel :=
  { wheel_ := List.replicate 60 [], slots_ := 60, interval_ := 10, current_slot_ := 0,
    next_id_ := 0 }

/-! ### Views of the wheel used to state its invariants -/

/-- Per slot, the stored tasks that carry the given id. -/
def idView (id : Nat) (wheel : List (List TimerTask)) : List (List TimerTask) :=
  wheel.map (fun slot => slot.filter (fun t => t.id == id))

/-- Empty the first non-empty list. -/
def clearFirst (view : List (List TimerTask)) : List (List TimerTask) :=
  match view with
  | [] => []
  | slot :: rest => if slot.isEmpty then slot :: clearFirst rest else [] :: rest

/-- The task is stored exactly once in the wheel, in the slot that the tick
after `r` more ticks drains, and under an id that was issued already. -/
def Pending (w : TimerWheel) (task : TimerTask) (r : Nat) : Prop :=
  w.wheel_.length = w.slots_ ∧ w.current_slot_ < w.slots_ ∧ task.id ≠ 0 ∧
  task.id ≤ w.next_id_ ∧ r < w.slots_ ∧
  idView task.id w.wheel_ =
    (List.replicate w.slots_ []).set ((w.current_slot_ + r) % w.slots_) [task]

/-- No task with the id is stored in the wheel, and the id was issued already. -/
def Gone (w : TimerWheel) (id : Nat) : Prop :=
  w.wheel_.length = w.slots_ ∧ id ≤ w.next_id_ ∧
  idView id w.wheel_ = List.replicate w.slots_ []

/-! ## `iocp_server.hpp`, `iocp_server.cpp`: registry and idle timeout -/

/-- `SOCKET` (`UINT_PTR`). -/
abbrev SOCKET := Nat

/-- `INVALID_SOCKET` is `(SOCKET)(~0)`. -/
def INVALID_SOCKET : SOCKET := 2 ^ 64 - 1

/-- `enum class IoOperation`. -/
inductive IoOperation where
  | ACCEPT
  | RECV
  | SEND
  deriving DecidableEq, Repr

/-- `struct PerIoData`: the operation, its socket, and the bytes of `buffer` that
`wsaBuf` covers. -/
structure PerIoData where
  operation : IoOperation
  socket : SOCKET
  buffer : Bytes
  deriving DecidableEq, Repr

/-- Address of a `PerIoData` on the heap. -/
abbrev Ptr := Nat

/-- `struct IocpServer::ClientContext`; `pending_recv` is the `unique_ptr`: null,
or the address of the descriptor it owns. -/
structure ClientContext where
  partial_request : Bytes
  pending_recv : Option Ptr
  deriving DecidableEq, Repr

/-- `m[key] = value` on an `unordered_map` keyed by socket. -/
def assignKey {α : Type} (m : List (SOCKET × α)) (key : SOCKET) (value : α) : List (SOCKET × α) :=
  match m with
  | [] => [(key, value)]
  | (k, v) :: rest => if k = key then (k, value) :: rest else (k, v) :: assignKey rest key value

/-- `m.find(key)` on an `unordered_map` keyed by socket. -/
def findKey {α : Type} (m : List (SOCKET × α)) (key : SOCKET) : Option α :=
  match m with
  | [] => none
  | (k, v) :: rest => if k = key then some v else findKey rest key

/-- `m.erase(key)` on an `unordered_map` keyed by socket. -/
def eraseKey {α : Type} (m : List (SOCKET × α)) (key : SOCKET) : List (SOCKET × α) :=
  m.filter (fun e => e.1 != key)

/-- The members of `class IocpServer` that connection registration, the idle
timeout and teardown read or write, and `closed`, the sockets passed to
`closesocket` so far. -/
structure IocpServer where
  clients_ : List (SOCKET × ClientContext)
  timer_ : TimerWheel
  timeout_ids_ : List (SOCKET × Nat)
  closed : List SOCKET
  deriving DecidableEq, Repr

/-- The server after a successful `IocpServer::Initialize`: no client, and the
timer made by `std::make_unique<TimerWheel>()`, that is with the default
arguments `slots = 60`, `interval = 10ms`. -/
def IocpServer.Initialize : IocpServer :=
  { clients_ := [], timer_ := wheel60, timeout_ids_ := [], closed := [] }

/-- `IocpServer::CloseClientSocket(socket)`. -/
def IocpServer.CloseClientSocket (sv : IocpServer) (socket : SOCKET) : IocpServer :=
  if socket ≠ INVALID_SOCKET then
    match findKey sv.timeout_ids_ socket with
    | some id =>
      { clients_ := eraseKey sv.clients_ socket,
        timer_ := sv.timer_.CancelTimeout id,
        timeout_ids_ := eraseKey sv.timeout_ids_ socket,
        closed := sv.closed ++ [socket] }
    | none =>
      { sv with clients_ := eraseKey sv.clients_ socket, closed := sv.closed ++ [socket] }
  else sv

/-- The delay `120s` of `HandleAccept`, in milliseconds. -/
def IDLE_TIMEOUT_MS : Int := 120000

/-- `IocpServer::HandleAccept(acceptData)` for the accepted socket.
`associated` is whether `CreateIoCompletionPort` succeeded, `recvPosted` whether
`WSARecv` in `PostRecv` returned success or `WSA_IO_PENDING`. The timeout
callback `[this, clientSocket]() { CloseClientSocket(clientSocket); }` is
labelled by the socket it captures; the delay being positive, `AddTimeout`
invokes nothing during the call. -/
def IocpServer.HandleAccept (sv : IocpServer) (clientSocket : SOCKET)
    (associated recvPosted : Bool) : IocpServer :=
  if associated then
    let sv1 := { sv with clients_ := assignKey sv.clients_ clientSocket
                           { partial_request := [], pending_recv := none } }
    let armed := sv1.timer_.AddTimeout IDLE_TIMEOUT_MS clientSocket
    let sv2 := { sv1 with timer_ := armed.1,
                          timeout_ids_ := assignKey sv1.timeout_ids_ clientSocket armed.2.1 }
    if recvPosted then sv2 else sv2.CloseClientSocket clientSocket
  else { sv with closed := sv.closed ++ [clientSocket] }

/-- One tick of the timer thread on the server: the wheel drains its current
slot, then each drained callback runs `CloseClientSocket` on its socket. -/
def IocpServer.timerTick (sv : IocpServer) : IocpServer :=
  sv.timer_.tick.2.foldl (fun s task => s.CloseClientSocket task.callback)
    { sv with timer_ := sv.timer_.tick.1 }

/-- The server after `n` ticks of the timer thread. -/
def IocpServer.timerTicks (sv : IocpServer) (n : Nat) : IocpServer :=
  match n with
  | 0 => sv
  | k + 1 => IocpServer.timerTicks sv.timerTick k

/-- The connection is in the registry `clients_`. -/
def IocpServer.registered (sv : IocpServer) (socket : SOCKET) : Bool :=
  (findKey sv.clients_ socket).isSome

/-! ## `iocp_server.cpp`: request dispatch and response building -/

/-- `BUFFER_SIZE` of `common.hpp`. -/
def BUFFER_SIZE : Nat := 8192

/-- A non-negative number as `operator<<` writes it, in decimal. -/
def decimal (n : Nat) : Bytes := Nat.toDigits 10 n

/-- The table `statusTexts` of `BuildHttpResponse`; `none` is a missing key. -/
def statusTexts (statusCode : Int) : Option Bytes :=
  if statusCode = 200 then some "OK".toList
  else if statusCode = 400 then some "Bad Request".toList
  else if statusCode = 404 then some "Not Found".toList
  else if statusCode = 500 then some "Internal Server Error".toList
  else none

/-- `IocpServer::BuildHttpResponse(content, contentType, statusCode)`; `none`
stands for the `out_of_range` that `statusTexts.at` throws on a missing key. -/
def BuildHttpResponse (content contentType : Bytes) (statusCode : Int) : Option Bytes :=
  match statusTexts statusCode with
  | none => none
  | some text =>
    some ("HTTP/1.1 ".toList ++ decimal statusCode.toNat ++ " ".toList ++ text ++ "\r\n".toList
      ++ "Content-Type: ".toList ++ contentType ++ "\r\n".toList
      ++ "Content-Length: ".toList ++ decimal content.length ++ "\r\n".toList
      ++ "Connection: keep-alive\r\n\r\n".toList
      ++ content)

/-- `PerIoData(SOCKET s, IoOperation op)`. For a descriptor that is not a send
the model keeps no payload: received bytes come with the completion. -/
def PerIoData.new (s : SOCKET) (op : IoOperation) : PerIoData :=
  { operation := op, socket := s, buffer := [] }

/-- `PerIoData(SOCKET s, IoOperation op, const std::string& data)`: `wsaBuf` covers
the first `min(data.size(), sizeof(buffer))` bytes of `data`. -/
def PerIoData.withData (s : SOCKET) (op : IoOperation) (data : Bytes) : PerIoData :=
  { operation := op, socket := s, buffer := data.take (min data.length BUFFER_SIZE) }

/-- The files under `documentRoot_`: what `fs::path(documentRoot_) / rel` holds,
`none` when `fs::exists` is false, else the bytes that reading it yields. -/
abbrev FileSystem := Bytes → Option Bytes

/-- `path.find("..") != std::string::npos`. -/
def containsDotDot (path : Bytes) : Bool :=
  match path with
  | [] => false
  | c :: rest => (c == '.' && rest.head? == some '.') || containsDotDot rest

/-- `path.substr(1)`; `none` stands for the `out_of_range` thrown when
`1 > path.size()`. -/
def substr1 (path : Bytes) : Option Bytes :=
  if 1 > path.length then none else some (path.drop 1)

/-- `fs::path::filename()`: what follows the last directory separator. -/
def filenameOf (path : Bytes) : Bytes :=
  (path.reverse.takeWhile (fun c => c != '/' && c != '\\')).reverse

/-- `fs::path::extension()`: from the last dot of the file name on, empty when
there is no dot, when the dot starts the file name, or for `.` and `..`. -/
def extensionOf (path : Bytes) : Bytes :=
  let name := filenameOf path
  let tail := (name.reverse.takeWhile (fun c => c != '.')).reverse
  if name = ".".toList ∨ name = "..".toList then []
  else if name.contains '.' && tail.length + 1 < name.length then '.' :: tail
  else []

/-- The chain of `if` on `filePath.extension()` in `ProcessHttpRequest`. -/
def contentTypeOf (path : Bytes) : Bytes :=
  if extensionOf path = ".html".toList then "text/html".toList
  else if extensionOf path = ".css".toList then "text/css".toList
  else if extensionOf path = ".js".toList then "application/javascript".toList
  else if extensionOf path = ".jpg".toList ∨ extensionOf path = ".jpeg".toList then
    "image/jpeg".toList
  else if extensionOf path = ".png".toList then "image/png".toList
  else "text/plain".toList

/-- `IocpServer::ProcessHttpRequest(clientSocket, request)` up to its one call of
`PostSend`: the descriptor `new PerIoData(clientSocket, IoOperation::SEND, response)`
handed to it; `none` stands for an exception leaving the function. -/
def IocpServer.ProcessHttpRequest (files : FileSystem) (clientSocket : SOCKET)
    (request : HttpRequest) : Option PerIoData :=
  let path := if request.uri = "/".toList then "/index.html".toList else request.uri
  if containsDotDot path then
    (BuildHttpResponse "Invalid path".toList "text/plain".toList 400).map
      (PerIoData.withData clientSocket .SEND)
  else
    match substr1 path with
    | none => none
    | some rel =>
      match files rel with
      | none =>
        (BuildHttpResponse "File not found".toList "text/plain".toList 404).map
          (PerIoData.withData clientSocket .SEND)
      | some content =>
        (BuildHttpResponse content (contentTypeOf rel) 200).map
          (PerIoData.withData clientSocket .SEND)

/-- A document root that holds only `index.html`, with the given content. -/
def onlyIndex (content : Bytes) : FileSystem :=
  fun rel => if rel = "index.html".toList then some content else none

/-! ## `iocp_server.cpp`: the completion handlers

The server together with the descriptors it allocated and the operations it
handed to the operating system. A worker thread runs one completion handler to
its end before it takes the next completion, and the handlers of one connection
are run one after the other here: a history is a sequence of completions. Only
successful completions are modelled. -/

/-- A `PerIoData` allocated with `new` or `make_unique`, and how many times it was
deleted since. -/
structure Descriptor where
  data : PerIoData
  deletes : Nat
  deriving DecidableEq, Repr

/-- The server, every descriptor it ever allocated (the address of a descriptor
is its position), and the operations issued and not yet completed, in order of
issue. -/
structure World where
  server : IocpServer
  descriptors : List Descriptor
  inflight : List Ptr
  deriving DecidableEq, Repr

/-- Why a handler does not return: an exception leaves it, it locks
`clientsMutex_` while holding it, or it touches a deleted descriptor. -/
inductive Fault where
  | exception
  | deadlock
  | dangling
  deriving DecidableEq, Repr

/-- Result of a handler. -/
inductive Outcome where
  | ok (w : World)
  | fault (f : Fault)
  deriving DecidableEq, Repr

/-- Reading through a pointer: the descriptor, when it is allocated and not
deleted. -/
def World.read (w : World) (p : Ptr) : Option PerIoData :=
  match w.descriptors[p]? with
  | none => none
  | some cell => if cell.deletes = 0 then some cell.data else none

/-- `new PerIoData(...)`: the world with the descriptor, and its address. -/
def World.alloc (w : World) (d : PerIoData) : World × Ptr :=
  ({ w with descriptors := w.descriptors ++ [{ data := d, deletes := 0 }] }, w.descriptors.length)

/-- Count one more `delete` on the cell at the address. -/
def deleteAt (cells : List Descriptor) (p : Ptr) : List Descriptor :=
  match cells, p with
  | [], _ => []
  | cell :: rest, 0 => { cell with deletes := cell.deletes + 1 } :: rest
  | cell :: rest, q + 1 => cell :: deleteAt rest q

/-- `delete p`. -/
def World.delete (w : World) (p : Ptr) : World :=
  { w with descriptors := deleteAt w.descriptors p }

/-- The operation was accepted by the operating system and is now outstanding. -/
def World.issue (w : World) (p : Ptr) : World :=
  { w with inflight := w.inflight ++ [p] }

/-- `IocpServer::CloseClientSocket(socket)` with the destructor that
`clients_.erase(socket)` runs: the `unique_ptr` of the erased context deletes the
descriptor it owns. -/
def World.CloseClientSocket (w : World) (socket : SOCKET) : World :=
  let owned := if socket ≠ INVALID_SOCKET then
      (findKey w.server.clients_ socket).bind (fun c => c.pending_recv)
    else none
  let w1 := { w with server := w.server.CloseClientSocket socket }
  match owned with
  | some p => w1.delete p
  | none => w1

/-- `IocpServer::PostRecv(perIoData)`. `posted` is whether `WSARecv` returned
success or `WSA_IO_PENDING`; `locked` is whether the caller holds
`clientsMutex_`, which the `CloseClientSocket` of the failure path locks. -/
def World.PostRecv (w : World) (p : Ptr) (posted locked : Bool) : Outcome :=
  match w.read p with
  | none => .fault .dangling
  | some d =>
    if posted then .ok (w.issue p)
    else if locked then .fault .deadlock
    else .ok ((w.CloseClientSocket d.socket).delete p)

/-- `IocpServer::PostSend(perIoData)`, with `posted` and `locked` as in
`PostRecv`. -/
def World.PostSend (w : World) (p : Ptr) (posted locked : Bool) : Outcome :=
  match w.read p with
  | none => .fault .dangling
  | some d =>
    if posted then .ok (w.issue p)
    else if locked then .fault .deadlock
    else .ok ((w.CloseClientSocket d.socket).delete p)

/-- `IocpServer::ProcessHttpRequest(clientSocket, request)` as called by
`HandleRecv`, which holds `clientsMutex_`: the response descriptor is allocated
and handed to `PostSend`. -/
def World.ProcessHttpRequest (w : World) (files : FileSystem) (clientSocket : SOCKET)
    (request : HttpRequest) (sendPosted : Bool) : Outcome :=
  match IocpServer.ProcessHttpRequest files clientSocket request with
  | none => .fault .exception
  | some sd => (w.alloc sd).1.PostSend (w.alloc sd).2 sendPosted true

/-- `clients_[socket]`: the context of the socket, default-constructed when the
socket has none. -/
def clientAt (clients : List (SOCKET × ClientContext)) (socket : SOCKET) : ClientContext :=
  (findKey clients socket).getD { partial_request := [], pending_recv := none }

/-- The descriptor that `HandleRecv` posts: the one `pending_recv` owns, or a new
one made by `make_unique` when it is null. -/
def World.pendingRecv (w : World) (client : ClientContext) (socket : SOCKET) : World × Ptr :=
  match client.pending_recv with
  | some p => (w, p)
  | none => w.alloc (PerIoData.new socket .RECV)

/-- Store the context of a socket in `clients_`. -/
def World.setClient (w : World) (socket : SOCKET) (c : ClientContext) : World :=
  { w with server := { w.server with clients_ := assignKey w.server.clients_ socket c } }

/-- Second half of `HandleRecv`, after the parse and the dispatch: `kept` is the
content of `partial_request` then. The receive is posted on `pending_recv`, and
`recvData` is deleted. -/
def World.rearm (w : World) (client : ClientContext) (socket : SOCKET) (kept : Bytes)
    (recvData : Ptr) (recvPosted : Bool) : Outcome :=
  let armed := w.pendingRecv client socket
  let w2 := armed.1.setClient socket { partial_request := kept, pending_recv := some armed.2 }
  match w2.PostRecv armed.2 recvPosted true with
  | .fault f => .fault f
  | .ok w3 => .ok (w3.delete recvData)

/-- `IocpServer::HandleRecv(recvData, bytesTransferred)`; `data` is the
`bytesTransferred` bytes that the completed receive left in `recvData->buffer`. -/
def World.HandleRecv (w : World) (files : FileSystem) (recvData : Ptr) (data : Bytes)
    (sendPosted recvPosted : Bool) : Outcome :=
  match w.read recvData with
  | none => .fault .dangling
  | some rd =>
    if data.length = 0 then .ok ((w.CloseClientSocket rd.socket).delete recvData)
    else
      let client := clientAt w.server.clients_ rd.socket
      let buffer := client.partial_request ++ data
      if (HttpParser.new.parse buffer).1 = .SUCCESS then
        match w.ProcessHttpRequest files rd.socket (HttpParser.new.parse buffer).2.request
            sendPosted with
        | .fault f => .fault f
        | .ok w1 => w1.rearm client rd.socket [] recvData recvPosted
      else w.rearm client rd.socket buffer recvData recvPosted

/-- `IocpServer::HandleSend(sendData)`. -/
def World.HandleSend (w : World) (sendData : Ptr) (recvPosted : Bool) : Outcome :=
  match w.read sendData with
  | none => .fault .dangling
  | some sd =>
    match (w.alloc (PerIoData.new sd.socket .RECV)).1.PostRecv
        (w.alloc (PerIoData.new sd.socket .RECV)).2 recvPosted false with
    | .fault f => .fault f
    | .ok w1 => .ok (w1.delete sendData)

/-- `IocpServer::StartAccept()`. `newSocket` is the socket `WSASocket` made, if
any; `acceptPosted` is whether `AcceptEx` returned success or `ERROR_IO_PENDING`. -/
def World.StartAccept (w : World) (newSocket : Option SOCKET) (acceptPosted : Bool) : World :=
  match newSocket with
  | none => w
  | some s =>
    let a := w.alloc (PerIoData.new s .ACCEPT)
    if acceptPosted then a.1.issue a.2
    else { (a.1.delete a.2) with server := { a.1.server with closed := a.1.server.closed ++ [s] } }

/-- `IocpServer::HandleAccept(acceptData)`, with the descriptors: the assignment
`clients_[clientSocket] = ClientContext()` destroys the context the socket had,
a receive descriptor is allocated and posted, the next accept is started, and
`acceptData` is deleted. -/
def World.HandleAccept (w : World) (acceptData : Ptr) (associated recvPosted : Bool)
    (newSocket : Option SOCKET) (acceptPosted : Bool) : Outcome :=
  match w.read acceptData with
  | none => .fault .dangling
  | some ad =>
    if associated then
      let w1 := match (findKey w.server.clients_ ad.socket).bind (fun c => c.pending_recv) with
        | some p => w.delete p
        | none => w
      let w2 := { w1 with server := w.server.HandleAccept ad.socket true recvPosted }
      let a := w2.alloc (PerIoData.new ad.socket .RECV)
      let w3 := if recvPosted then a.1.issue a.2 else a.1.delete a.2
      .ok ((w3.StartAccept newSocket acceptPosted).delete acceptData)
    else
      .ok ({ w with server := w.server.HandleAccept ad.socket false recvPosted }.delete acceptData)

/-- What the environment answers while one completion is handled: the bytes a
receive delivered, and which of the system calls of the handler succeed. -/
structure Env where
  data : Bytes
  associated : Bool
  recvPosted : Bool
  sendPosted : Bool
  newSocket : Option SOCKET
  acceptPosted : Bool
  deriving DecidableEq, Repr

/-- Every system call succeeds; `data` was received, `newSocket` is the socket
of the next accept. -/
def Env.good (data : Bytes) (newSocket : SOCKET) : Env :=
  { data := data, associated := true, recvPosted := true, sendPosted := true,
    newSocket := some newSocket, acceptPosted := true }

/-- `IocpServer::HandleIoCompletion(bytesTransferred, perIoData)`. -/
def World.HandleIoCompletion (w : World) (files : FileSystem) (env : Env) (p : Ptr) : Outcome :=
  match w.read p with
  | none => .fault .dangling
  | some d =>
    match d.operation with
    | .ACCEPT => w.HandleAccept p env.associated env.recvPosted env.newSocket env.acceptPosted
    | .RECV => w.HandleRecv files p env.data env.sendPosted env.recvPosted
    | .SEND => w.HandleSend p env.recvPosted

/-- The operation at `p` completes: it is no longer outstanding, and a worker
thread handles the completion. Nothing happens for an address that is not
outstanding. -/
def World.complete (w : World) (files : FileSystem) (env : Env) (p : Ptr) : Outcome :=
  if p ∈ w.inflight then
    World.HandleIoCompletion { w with inflight := w.inflight.erase p } files env p
  else .ok w

/-- A sequence of completions, each with the answers of the environment. -/
def World.run (w : World) (files : FileSystem) (steps : List (Ptr × Env)) : Outcome :=
  match steps with
  | [] => .ok w
  | (p, env) :: rest =>
    match w.complete files env p with
    | .fault f => .fault f
    | .ok w1 => World.run w1 files rest

/-- The server after `Initialize`, whose `StartAccept` prepared `firstSocket` and
posted the accept. -/
def World.Initialize (firstSocket : SOCKET) : World :=
  World.StartAccept { server := IocpServer.Initialize, descriptors := [], inflight := [] }
    (some firstSocket) true

/-- Number of outstanding operations of a kind on a socket. -/
def World.outstanding (w : World) (op : IoOperation) (socket : SOCKET) : Nat :=
  (w.inflight.filter (fun p =>
    match w.descriptors[p]? with
    | some cell => cell.data.operation = op && cell.data.socket = socket
    | none => false)).length

/-- The responses built so far: the payloads of the send descriptors, in order
of allocation. -/
def World.responses (w : World) : List PerIoData :=
  (w.descriptors.map (fun cell => cell.data)).filter (fun d => d.operation = .SEND)

/-- How many times the descriptor at the address was deleted. -/
def World.deletes (w : World) (p : Ptr) : Nat :=
  match w.descriptors[p]? with
  | some cell => cell.deletes
  | none => 0

/-- The world of an outcome, for a handler that returned. -/
def Outcome.world? (o : Outcome) : Option World :=
  match o with
  | .ok w => some w
  | .fault _ => none

/-- What the claim on `GET /` expects the send operation to be handed when
`index.html` holds `content`: status line `200 OK`, the headers with the length
of `content`, and `content` as body. -/
def expectedIndexResponse (content : Bytes) : Bytes :=
  "HTTP/1.1 200 OK\r\nContent-Type: text/html\r\nContent-Length: ".toList
    ++ decimal content.length ++ "\r\nConnection: keep-alive\r\n\r\n".toList ++ content

/-- The response to a request whose path contains `..`. -/
def badRequestResponse : Bytes :=
  ("HTTP/1.1 400 Bad Request\r\nContent-Type: text/plain\r\nContent-Length: 12\r\n"
    ++ "Connection: keep-alive\r\n\r\nInvalid path").toList

/-- The world once the accept of socket 5 was handled after `Initialize` (the
next accept being posted for socket 6) and the first receive on socket 5 has
completed, before its handler runs. -/
def acceptedWorld : World :=
  { server := IocpServer.Initialize.HandleAccept 5 true true,
    descriptors := [{ data := PerIoData.new 5 .ACCEPT, deletes := 1 },
                    { data := PerIoData.new 5 .RECV, deletes := 0 },
                    { data := PerIoData.new 6 .ACCEPT, deletes := 0 }],
    inflight := [2] }

/-! ## Lemmas on the parser loop -/

theorem step_ret_cases (p : HttpParser) (c : Char) (st : ParseStatus)
    (h : p.step c = .ret st) : st = .FAILED ∨ (st = .SUCCESS ∧ p.state_ = .COMPLETE) := by
  unfold HttpParser.step at h
  split at h
  · split_ifs at h
    simp_all
  · split_ifs at h
  · split_ifs at h
  · split_ifs at h
  · split_ifs at h
    · simp only at h
      split at h <;> simp_all
  · simp only at h
    split_ifs at h
  · simp_all

theorem parse_complete (p : HttpParser) (d : Bytes) (h : p.state_ = .COMPLETE) :
    p.parse d = (.SUCCESS, p) := by
  cases d with
  | nil => simp [HttpParser.parse, h]
  | cons c rest => simp [HttpParser.parse, HttpParser.step, h]

theorem parse_nil_ne_failed (p : HttpParser) : (p.parse []).1 ≠ .FAILED := by
  simp only [HttpParser.parse]
  split_ifs <;> simp

theorem parse_append (p : HttpParser) (a b : Bytes) :
    p.parse (a ++ b) =
      if (p.parse a).1 = .FAILED then p.parse a else (p.parse a).2.parse b := by
  induction a generalizing p with
  | nil =>
    have h := parse_nil_ne_failed p
    simp only [List.nil_append, h, if_false]
    simp [HttpParser.parse]
  | cons c rest ih =>
    simp only [List.cons_append, HttpParser.parse]
    cases hs : p.step c with
    | next p1 => simpa using ih p1
    | ret st =>
      rcases step_ret_cases p c st hs with h | ⟨h, hc⟩
      · simp [h]
      · simp [h, parse_complete p b hc]

/-- In state `METHOD` the bytes before the first space are accumulated and the
space decides on them. -/
theorem method_run (p : HttpParser) (s : Bytes) (hst : p.state_ = .METHOD) (hsp : ' ' ∈ s)
    (hget : p.current_header_ ++ s.takeWhile (fun c => c != ' ') ≠ "GET".toList)
    (hpost : p.current_header_ ++ s.takeWhile (fun c => c != ' ') ≠ "POST".toList) :
    (p.parse s).1 = .FAILED := by
  induction s generalizing p with
  | nil => simp at hsp
  | cons c rest ih =>
    by_cases hc : c = ' '
    · subst hc
      simp at hget hpost
      simp [HttpParser.parse, HttpParser.step, hst, hget, hpost]
    · have hmem : ' ' ∈ rest := by
        rcases List.mem_cons.mp hsp with h | h
        · exact absurd h.symm hc
        · exact h
      have hne : (c != ' ') = true := by simpa using hc
      simp only [List.takeWhile_cons, hne, if_true] at hget hpost
      simp only [HttpParser.parse, HttpParser.step, hst, hc, if_false]
      apply ih
      · rfl
      · exact hmem
      · simpa using hget
      · simpa using hpost

/-- In state `URI` bytes other than the space are appended to `uri`. -/
theorem uri_run (p : HttpParser) (u rest : Bytes) (hst : p.state_ = .URI) (hu : ' ' ∉ u) :
    p.parse (u ++ ' ' :: rest) =
      HttpParser.parse { p with state_ := .VERSION,
                                request_ := { p.request_ with uri := p.request_.uri ++ u } } rest := by
  induction u generalizing p with
  | nil => simp [HttpParser.parse, HttpParser.step, hst]
  | cons c t ih =>
    have hc : c ≠ ' ' := fun h => hu (by simp [h])
    have ht : ' ' ∉ t := fun h => hu (by simp [h])
    rw [List.cons_append, HttpParser.parse]
    simp only [HttpParser.step, hst, hc, if_false]
    rw [ih _ rfl ht]
    simp

/-- In state `VERSION` bytes other than CR and LF are appended to `version`. -/
theorem version_run (p : HttpParser) (v rest : Bytes) (hst : p.state_ = .VERSION)
    (hcr : '\r' ∉ v) (hlf : '\n' ∉ v) :
    p.parse (v ++ '\r' :: rest) =
      HttpParser.parse { p with state_ := .HEADER_NAME,
                                request_ := { p.request_ with version := p.request_.version ++ v } }
        rest := by
  induction v generalizing p with
  | nil => simp [HttpParser.parse, HttpParser.step, hst]
  | cons c t ih =>
    have hc : c ≠ '\r' := fun h => hcr (by simp [h])
    have hc2 : c ≠ '\n' := fun h => hlf (by simp [h])
    have ht : '\r' ∉ t := fun h => hcr (by simp [h])
    have ht2 : '\n' ∉ t := fun h => hlf (by simp [h])
    rw [List.cons_append, HttpParser.parse]
    simp only [HttpParser.step, hst, hc, if_false, ne_eq, hc2, not_false_eq_true, if_true]
    rw [ih _ rfl ht ht2]
    simp

/-- In state `HEADER_NAME` bytes other than the colon and CR are appended to
`current_header_`. -/
theorem header_name_run (p : HttpParser) (n rest : Bytes) (hst : p.state_ = .HEADER_NAME)
    (hcolon : ':' ∉ n) (hcr : '\r' ∉ n) :
    p.parse (n ++ ':' :: rest) =
      HttpParser.parse { p with state_ := .HEADER_VALUE,
                                current_header_ := p.current_header_ ++ n } rest := by
  induction n generalizing p with
  | nil => simp [HttpParser.parse, HttpParser.step, hst]
  | cons c t ih =>
    have hc : c ≠ ':' := fun h => hcolon (by simp [h])
    have hc2 : c ≠ '\r' := fun h => hcr (by simp [h])
    have ht : ':' ∉ t := fun h => hcolon (by simp [h])
    have ht2 : '\r' ∉ t := fun h => hcr (by simp [h])
    rw [List.cons_append, HttpParser.parse]
    simp only [HttpParser.step, hst, hc, hc2, if_false]
    rw [ih _ rfl ht ht2]
    simp

/-- In state `HEADER_VALUE` bytes other than CR are appended to `current_header_`,
LF excepted, which is skipped. -/
theorem header_value_run (p : HttpParser) (v rest : Bytes) (hst : p.state_ = .HEADER_VALUE)
    (hcr : '\r' ∉ v) :
    p.parse (v ++ '\r' :: rest) =
      HttpParser.parse { p with current_header_ :=
                                p.current_header_ ++ v.filter (fun c => c != '\n') }
        ('\r' :: rest) := by
  induction v generalizing p with
  | nil => simp
  | cons c t ih =>
    have hc : c ≠ '\r' := fun h => hcr (by simp [h])
    have ht : '\r' ∉ t := fun h => hcr (by simp [h])
    rw [List.cons_append, HttpParser.parse]
    by_cases hlf : c = '\n'
    · subst hlf
      simp only [HttpParser.step, hst]
      simp only [show ('\n' : Char) ≠ '\r' by decide, if_false, ne_eq, not_true_eq_false]
      rw [ih _ hst ht]
      simp [hst]
    · simp only [HttpParser.step, hst, hc, if_false, ne_eq, hlf, not_false_eq_true, if_true]
      rw [ih _ rfl ht]
      have hne : (c != '\n') = true := by simpa using hlf
      simp [List.filter_cons, hne]

/-- End of a header line whose accumulated text is not `Content-Length`: the CR
stores the entry and the LF that follows opens the next name. -/
theorem header_value_end (p : HttpParser) (rest : Bytes) (hst : p.state_ = .HEADER_VALUE)
    (hne : p.current_header_ ≠ "Content-Length".toList) :
    p.parse ('\r' :: '\n' :: rest) =
      HttpParser.parse { p with state_ := .HEADER_NAME, current_header_ := ['\n'],
                                request_ := { p.request_ with
                                  headers := mapAssign p.request_.headers p.current_header_
                                    (trimBlanks p.current_header_) } } rest := by
  rw [HttpParser.parse]
  simp only [HttpParser.step, hst, if_true, hne, if_false]
  rw [HttpParser.parse]
  simp [HttpParser.step]

/-- From the start of a header line of a `GET` request, header lines followed by
the empty line complete the request and leave method, uri and version alone. -/
theorem header_lines_run (hs : List (Bytes × Bytes)) (p : HttpParser)
    (hst : p.state_ = .HEADER_NAME) (hcur : p.current_header_ = ['\n'])
    (hm : p.request_.method = .GET)
    (hwf : ∀ h ∈ hs, ':' ∉ h.1 ∧ '\r' ∉ h.1 ∧ '\r' ∉ h.2) :
    (p.parse (headerLines hs ++ "\r\n".toList)).1 = .SUCCESS ∧
    (p.parse (headerLines hs ++ "\r\n".toList)).2.request_.method = .GET ∧
    (p.parse (headerLines hs ++ "\r\n".toList)).2.request_.uri = p.request_.uri ∧
    (p.parse (headerLines hs ++ "\r\n".toList)).2.request_.version = p.request_.version := by
  induction hs generalizing p with
  | nil =>
    have h : headerLines [] ++ "\r\n".toList = ['\r', '\n'] := rfl
    rw [h]
    simp [HttpParser.parse, HttpParser.step, hst, hm]
  | cons h t ih =>
    obtain ⟨h1, h2, h3⟩ := hwf h (by simp)
    have hshape : headerLines (h :: t) ++ "\r\n".toList =
        h.1 ++ ':' :: ((' ' :: h.2) ++ '\r' :: '\n' :: (headerLines t ++ "\r\n".toList)) := by
      simp [headerLines, String.toList]
    have h3b : '\r' ∉ (' ' :: h.2) := by
      intro hmem
      rcases List.mem_cons.mp hmem with e | e
      · exact absurd e (by decide)
      · exact h3 e
    rw [hshape, header_name_run p _ _ hst h1 h2, header_value_run _ _ _ rfl h3b,
      header_value_end _ _ rfl (by simp [hcur, String.toList])]
    exact ih _ rfl rfl hm (fun x hx => hwf x (by simp [hx]))

/-- Feeding fragments one call after the other equals one call on their
concatenation when no call before the last returns `FAILED`, from any parser. -/
theorem feedFragments_eq_parse (p : HttpParser) (f : Bytes) (rest : List Bytes)
    (h : earlierCallsNotFailed p f rest = true) :
    feedFragments p f rest = p.parse (concatFragments f rest) := by
  induction rest generalizing p f with
  | nil => rfl
  | cons g gs ih =>
    simp only [earlierCallsNotFailed, Bool.and_eq_true, bne_iff_ne, ne_eq] at h
    obtain ⟨h1, h2⟩ := h
    simp only [feedFragments, concatFragments]
    rw [parse_append, if_neg h1]
    exact ih _ g h2

/-- `std::stoul` throws on the only text for which the parser calls it. -/
theorem stoul_content_length : stoul (trimBlanks "Content-Length".toList) = none := by decide

/-- A step of the loop keeps `content_length_` at zero and the body empty, and
does not enter state `BODY`. -/
theorem step_keeps_no_body (p q : HttpParser) (c : Char)
    (h : p.content_length_ = 0 ∧ p.request_.body = [] ∧ p.state_ ≠ .BODY)
    (hs : p.step c = .next q) :
    q.content_length_ = 0 ∧ q.request_.body = [] ∧ q.state_ ≠ .BODY := by
  obtain ⟨h1, h2, h3⟩ := h
  unfold HttpParser.step at hs
  split at hs
  · split_ifs at hs <;> (simp only [Step.next.injEq] at hs; subst hs; simp_all)
  · split_ifs at hs <;> (simp only [Step.next.injEq] at hs; subst hs; simp_all)
  · split_ifs at hs <;> (simp only [Step.next.injEq] at hs; subst hs; simp_all)
  · split_ifs at hs with a b c1 <;> (simp only [Step.next.injEq] at hs; subst hs; simp_all)
  · split_ifs at hs with a b
    · simp only [b, stoul_content_length] at hs
      cases hs
    · simp only [Step.next.injEq] at hs; subst hs; simp_all
    · simp only [Step.next.injEq] at hs; subst hs; simp_all
    · simp only [Step.next.injEq] at hs; subst hs; simp_all
  · simp_all
  · cases hs

/-- Whatever the input, a fresh parser ends with `content_length_` zero and an
empty body: state `BODY` is out of reach. -/
theorem parse_new_no_body (data : Bytes) :
    (HttpParser.new.parse data).2.content_length_ = 0 ∧
    (HttpParser.new.parse data).2.request.body = [] := by
  have hgen : ∀ (d : Bytes) (p : HttpParser),
      p.content_length_ = 0 ∧ p.request_.body = [] ∧ p.state_ ≠ .BODY →
      (p.parse d).2.content_length_ = 0 ∧ (p.parse d).2.request_.body = [] := by
    intro d
    induction d with
    | nil => exact fun p h => ⟨h.1, h.2.1⟩
    | cons c rest ih =>
      intro p h
      rw [HttpParser.parse]
      cases hs : p.step c with
      | ret st => exact ⟨h.1, h.2.1⟩
      | next q => exact ih q (step_keeps_no_body p q c h hs)
  exact hgen data HttpParser.new ⟨rfl, rfl, by decide⟩

/-! ## Claims on the HTTP parser -/

/-- C1 (as stated, refuted): the request bytes `X Y` given in one call return
`FAILED`, while the fragments `X ` and `Y` given in two calls end with
`INCOMPLETE`: the first call fails without recording the failure, and the second
goes on accumulating the method token. -/
theorem C1_fragments_after_failure_differ :
    (HttpParser.new.parse (concatFragments "X ".toList ["Y".toList])).1 = .FAILED ∧
    (feedFragments HttpParser.new "X ".toList ["Y".toList]).1 = .INCOMPLETE ∧
    (feedFragments HttpParser.new "X ".toList ["Y".toList]).1 ≠
      (HttpParser.new.parse (concatFragments "X ".toList ["Y".toList])).1 := by
  decide

/-- C1 (amended): for every partition of a byte sequence into fragments, a fresh
parser given the fragments by successive `parse` calls, none of which before the
last returns `FAILED`, ends with the same status and the same parser contents
(hence the same method, uri, version, headers and body) as a fresh parser given
the whole sequence in one call. -/
theorem C1_fragments_agree (f : Bytes) (rest : List Bytes)
    (h : earlierCallsNotFailed HttpParser.new f rest = true) :
    (feedFragments HttpParser.new f rest).1 =
      (HttpParser.new.parse (concatFragments f rest)).1 ∧
    (feedFragments HttpParser.new f rest).2.request =
      (HttpParser.new.parse (concatFragments f rest)).2.request := by
  rw [feedFragments_eq_parse HttpParser.new f rest h]
  exact ⟨rfl, rfl⟩

/-- Witness of C1 (amended): `GET / HTTP/1.1` with its empty line, cut in three. -/
theorem C1_fragments_agree_witness :
    earlierCallsNotFailed HttpParser.new "GET / HT".toList
        ["TP/1.1\r\n".toList, "\r\n".toList] = true ∧
    (feedFragments HttpParser.new "GET / HT".toList ["TP/1.1\r\n".toList, "\r\n".toList]).1 =
      (HttpParser.new.parse
        (concatFragments "GET / HT".toList ["TP/1.1\r\n".toList, "\r\n".toList])).1 ∧
    (feedFragments HttpParser.new "GET / HT".toList
        ["TP/1.1\r\n".toList, "\r\n".toList]).2.request =
      (HttpParser.new.parse
        (concatFragments "GET / HT".toList ["TP/1.1\r\n".toList, "\r\n".toList])).2.request :=
  ⟨by decide, C1_fragments_agree _ _ (by decide)⟩

/-- C2 (the code at the failing inputs): on the POST requests of the test and of
the specification, with `Content-Length: 11` and `hello world`, and with
`Content-Length: 5` and `hello`, `parse` returns `SUCCESS` with an empty body
and `content_length_` still `0`: the header line is stored under the text
`\nContent-Length 11`, never compared equal to `Content-Length`. -/
theorem C2_post_body_is_dropped :
    (HttpParser.new.parse
      "POST /submit HTTP/1.1\r\nContent-Length: 11\r\n\r\nhello world".toList).1 = .SUCCESS ∧
    (HttpParser.new.parse
      "POST /submit HTTP/1.1\r\nContent-Length: 11\r\n\r\nhello world".toList).2.request.body
        = [] ∧
    (HttpParser.new.parse
      "POST /submit HTTP/1.1\r\nContent-Length: 11\r\n\r\nhello world".toList).2.content_length_
        = 0 ∧
    (HttpParser.new.parse
      "POST /x HTTP/1.1\r\nContent-Length: 5\r\n\r\nhello".toList).1 = .SUCCESS ∧
    (HttpParser.new.parse
      "POST /x HTTP/1.1\r\nContent-Length: 5\r\n\r\nhello".toList).2.request.body = [] := by
  decide

/-- C3 (the code at the failing input): on the POST request with
`Content-Length: 5` of which only `hel` of the body was delivered, and on the
same request with no body byte at all, `parse` returns `SUCCESS`, not
`INCOMPLETE`. -/
theorem C3_short_body_is_success :
    (HttpParser.new.parse
      "POST /x HTTP/1.1\r\nContent-Length: 5\r\n\r\nhel".toList).1 = .SUCCESS ∧
    (HttpParser.new.parse
      "POST /x HTTP/1.1\r\nContent-Length: 5\r\n\r\n".toList).1 = .SUCCESS := by
  decide

/-- C4: for every URI `u` without a space, every version `v` without CR or LF and
every list of header lines `Name: Value` (names without colon or CR, values
without CR), a fresh parser given `GET u v\r\n`, the header lines each followed
by `\r\n`, and `\r\n`, returns `SUCCESS` with method `GET`, uri `u` and version
`v`. -/
theorem C4_get_request_parses (u v : Bytes) (hs : List (Bytes × Bytes))
    (hu : ' ' ∉ u) (hv : '\r' ∉ v ∧ '\n' ∉ v)
    (hh : ∀ h ∈ hs, ':' ∉ h.1 ∧ '\r' ∉ h.1 ∧ '\r' ∉ h.2) :
    (HttpParser.new.parse (getRequest u v hs)).1 = .SUCCESS ∧
    (HttpParser.new.parse (getRequest u v hs)).2.request.method = .GET ∧
    (HttpParser.new.parse (getRequest u v hs)).2.request.uri = u ∧
    (HttpParser.new.parse (getRequest u v hs)).2.request.version = v := by
  have hshape : getRequest u v hs =
      'G' :: 'E' :: 'T' :: ' ' ::
        (u ++ ' ' :: (v ++ '\r' :: '\n' :: (headerLines hs ++ "\r\n".toList))) := by
    simp [getRequest, String.toList]
  rw [hshape]
  simp only [HttpParser.parse, HttpParser.step, HttpParser.new, HttpParser.request]
  simp only [show ('G' : Char) ≠ ' ' by decide, show ('E' : Char) ≠ ' ' by decide,
    show ('T' : Char) ≠ ' ' by decide, if_false, if_true, List.nil_append, List.cons_append,
    show ['G', 'E', 'T'] = "GET".toList by rfl]
  rw [uri_run _ _ _ rfl hu, version_run _ _ _ rfl hv.1 hv.2, HttpParser.parse]
  simp only [HttpParser.step, show ('\n' : Char) ≠ ':' by decide,
    show ('\n' : Char) ≠ '\r' by decide, if_false, List.nil_append]
  have := header_lines_run hs
    { state_ := .HEADER_NAME,
      request_ := { method := .GET, uri := u, version := v, headers := [], body := [] },
      current_header_ := ['\n'], content_length_ := 0, bytes_remaining_ := 0 } rfl rfl rfl hh
  simpa [HttpRequest.default] using this

/-- Witness of C4: the request of the test `GET with headers`. -/
theorem C4_get_request_parses_witness :
    (HttpParser.new.parse (getRequest "/index.html".toList "HTTP/1.1".toList
      [("Host".toList, "example.com".toList), ("Connection".toList, "keep-alive".toList)])).1
        = .SUCCESS ∧
    (HttpParser.new.parse (getRequest "/index.html".toList "HTTP/1.1".toList
      [("Host".toList, "example.com".toList),
       ("Connection".toList, "keep-alive".toList)])).2.request.method = .GET ∧
    (HttpParser.new.parse (getRequest "/index.html".toList "HTTP/1.1".toList
      [("Host".toList, "example.com".toList),
       ("Connection".toList, "keep-alive".toList)])).2.request.uri = "/index.html".toList ∧
    (HttpParser.new.parse (getRequest "/index.html".toList "HTTP/1.1".toList
      [("Host".toList, "example.com".toList),
       ("Connection".toList, "keep-alive".toList)])).2.request.version = "HTTP/1.1".toList :=
  C4_get_request_parses _ _ _ (by decide) (by decide) (by decide)

/-- C5: for every input that contains a space and whose bytes before the first
space are neither `GET` nor `POST`, `parse` on a fresh parser returns `FAILED`
(so never `SUCCESS` with method `UNKNOWN`). -/
theorem C5_unknown_method_fails (s : Bytes) (hsp : ' ' ∈ s)
    (hget : s.takeWhile (fun c => c != ' ') ≠ "GET".toList)
    (hpost : s.takeWhile (fun c => c != ' ') ≠ "POST".toList) :
    (HttpParser.new.parse s).1 = .FAILED :=
  method_run HttpParser.new s rfl hsp (by simpa [HttpParser.new] using hget)
    (by simpa [HttpParser.new] using hpost)

/-- Witness of C5: the request of the test `Invalid request`. -/
theorem C5_unknown_method_fails_witness :
    (HttpParser.new.parse "INVALID REQUEST\r\n".toList).1 = .FAILED :=
  C5_unknown_method_fails "INVALID REQUEST\r\n".toList (by decide) (by decide) (by decide)

/-- C6 (the code at the failing input): on the request of the test
`GET with headers`, `parse` returns `SUCCESS` and the header map has no entry
under `Host`; its two entries have as key and as value the whole accumulated
line, `\nHost example.com` and `\nConnection keep-alive`. -/
theorem C6_header_name_not_a_key :
    (HttpParser.new.parse
      "GET /index.html HTTP/1.1\r\nHost: example.com\r\nConnection: keep-alive\r\n\r\n".toList).1
        = .SUCCESS ∧
    mapFind (HttpParser.new.parse
      "GET /index.html HTTP/1.1\r\nHost: example.com\r\nConnection: keep-alive\r\n\r\n".toList
        ).2.request.headers "Host".toList = none ∧
    (HttpParser.new.parse
      "GET /index.html HTTP/1.1\r\nHost: example.com\r\nConnection: keep-alive\r\n\r\n".toList
        ).2.request.headers =
      [("\nHost example.com".toList, "\nHost example.com".toList),
       ("\nConnection keep-alive".toList, "\nConnection keep-alive".toList)] := by
  decide

/-! ## Lemmas on the timer wheel -/

theorem firedOf_append (id : Nat) (a b : List Event) :
    firedOf id (a ++ b) = firedOf id a ++ firedOf id b := by
  induction a with
  | nil => rfl
  | cons e rest ih =>
    cases e with
    | inline cb => simpa [firedOf] using ih
    | fired task =>
      by_cases h : task.id = id <;> simp [firedOf, h, ih]

theorem firedOf_map_inline (id : Nat) (cbs : List TimeoutCallback) :
    firedOf id (cbs.map Event.inline) = [] := by
  induction cbs with
  | nil => rfl
  | cons c rest ih => simpa [firedOf] using ih

theorem firedOf_map_fired (id : Nat) (tasks : List TimerTask) :
    firedOf id (tasks.map Event.fired) = tasks.filter (fun t => t.id == id) := by
  induction tasks with
  | nil => rfl
  | cons t rest ih =>
    by_cases h : t.id = id <;> simp [firedOf, List.filter_cons, h, ih]

theorem idView_length (id : Nat) (wheel : List (List TimerTask)) :
    (idView id wheel).length = wheel.length := by
  simp [idView]

theorem idView_getD (id : Nat) (wheel : List (List TimerTask)) (i : Nat) :
    (idView id wheel).getD i [] = (wheel.getD i []).filter (fun t => t.id == id) := by
  induction wheel generalizing i with
  | nil => simp [idView]
  | cons slot rest ih =>
    cases i with
    | zero => simp [idView]
    | succ j => simpa [idView] using ih j

theorem idView_set (id : Nat) (wheel : List (List TimerTask)) (i : Nat) (slot : List TimerTask) :
    idView id (wheel.set i slot) =
      (idView id wheel).set i (slot.filter (fun t => t.id == id)) := by
  simp [idView, List.map_set]

theorem set_getD_self (view : List (List TimerTask)) (i : Nat) :
    view.set i (view.getD i []) = view := by
  induction view generalizing i with
  | nil => simp
  | cons slot rest ih =>
    cases i with
    | zero => simp
    | succ j => simpa using ih j

theorem getD_replicate_nil (n i : Nat) :
    (List.replicate n ([] : List TimerTask)).getD i [] = [] := by
  induction n generalizing i with
  | zero => simp
  | succ m ih =>
    cases i with
    | zero => simp [List.replicate_succ]
    | succ j => simp [List.replicate_succ, ih j]

theorem getD_set_replicate (n t i : Nat) (x : List TimerTask) (ht : t < n) :
    ((List.replicate n ([] : List TimerTask)).set t x).getD i [] = if i = t then x else [] := by
  induction n generalizing t i with
  | zero => omega
  | succ m ih =>
    cases t with
    | zero =>
      cases i with
      | zero => simp [List.replicate_succ]
      | succ j => simp [List.replicate_succ, getD_replicate_nil]
    | succ t1 =>
      cases i with
      | zero => simp [List.replicate_succ]
      | succ j =>
        have := ih t1 j (by omega)
        simpa [List.replicate_succ] using this

theorem any_id_eq_filter (slot : List TimerTask) (id : Nat) :
    slot.any (fun t => t.id == id) = !(slot.filter (fun t => t.id == id)).isEmpty := by
  induction slot with
  | nil => rfl
  | cons t rest ih =>
    by_cases h : t.id = id <;> simp [List.filter_cons, h, ih]

theorem filter_slotErase_self (slot : List TimerTask) (id : Nat) :
    (slotErase slot id).filter (fun t => t.id == id) = [] := by
  unfold slotErase
  rw [List.filter_filter, List.filter_eq_nil_iff]
  intro t _
  by_cases h : t.id = id <;> simp [h]

theorem filter_slotErase_other (slot : List TimerTask) (id other : Nat) (h : id ≠ other) :
    (slotErase slot other).filter (fun t => t.id == id) = slot.filter (fun t => t.id == id) := by
  unfold slotErase
  rw [List.filter_filter]
  apply List.filter_congr
  intro t _
  by_cases h1 : t.id = id
  · subst h1
    simp [h]
  · simp [h1]

theorem filter_slotEmplace_other (slot : List TimerTask) (task : TimerTask) (id : Nat)
    (h : task.id ≠ id) :
    (slotEmplace slot task).filter (fun t => t.id == id) = slot.filter (fun t => t.id == id) := by
  unfold slotEmplace
  split_ifs
  · rfl
  · simp [List.filter_append, List.filter_cons, h]

theorem cancelIn_length (wheel : List (List TimerTask)) (id : Nat) :
    (cancelIn wheel id).length = wheel.length := by
  induction wheel with
  | nil => rfl
  | cons slot rest ih =>
    unfold cancelIn
    split_ifs <;> simp [ih]

theorem idView_cancel_other (wheel : List (List TimerTask)) (id other : Nat) (h : id ≠ other) :
    idView id (cancelIn wheel other) = idView id wheel := by
  induction wheel with
  | nil => rfl
  | cons slot rest ih =>
    unfold cancelIn
    split_ifs
    · simp [idView, filter_slotErase_other slot id other h]
    · simpa [idView] using ih

theorem idView_cancel_self (wheel : List (List TimerTask)) (id : Nat) :
    idView id (cancelIn wheel id) = clearFirst (idView id wheel) := by
  induction wheel with
  | nil => rfl
  | cons slot rest ih =>
    have hany := any_id_eq_filter slot id
    unfold cancelIn
    by_cases hempty : (slot.filter (fun t => t.id == id)).isEmpty = true
    · have hfalse : slot.any (fun t => t.id == id) = false := by simp [hany, hempty]
      simp only [hfalse, Bool.false_eq_true, if_false]
      have : idView id (slot :: rest) = slot.filter (fun t => t.id == id) :: idView id rest := rfl
      rw [this, clearFirst, if_pos hempty, ← ih]
      rfl
    · have htrue : slot.any (fun t => t.id == id) = true := by simp [hany, hempty]
      simp only [htrue, if_true]
      have : idView id (slot :: rest) = slot.filter (fun t => t.id == id) :: idView id rest := rfl
      rw [this, clearFirst, if_neg hempty]
      simp [idView, filter_slotErase_self]

theorem clearFirst_replicate (n : Nat) :
    clearFirst (List.replicate n []) = List.replicate n [] := by
  induction n with
  | zero => rfl
  | succ m ih => simp [List.replicate_succ, clearFirst, ih]

theorem clearFirst_set_replicate (n t : Nat) (x : TimerTask) :
    clearFirst ((List.replicate n []).set t [x]) = List.replicate n [] := by
  induction n generalizing t with
  | zero => rfl
  | succ m ih =>
    cases t with
    | zero => simp [List.replicate_succ, clearFirst]
    | succ t1 => simp [List.replicate_succ, clearFirst, ih]

theorem idView_emplace_other (wheel : List (List TimerTask)) (i id : Nat) (task : TimerTask)
    (h : task.id ≠ id) :
    idView id (wheel.set i (slotEmplace (wheel.getD i []) task)) = idView id wheel := by
  rw [idView_set, filter_slotEmplace_other _ _ _ h, ← idView_getD, set_getD_self]

theorem idView_absent (wheel : List (List TimerTask)) (id : Nat)
    (h : ∀ slot ∈ wheel, ∀ t ∈ slot, t.id ≠ id) :
    idView id wheel = List.replicate wheel.length [] := by
  induction wheel with
  | nil => rfl
  | cons slot rest ih =>
    have h1 : slot.filter (fun t => t.id == id) = [] := by
      rw [List.filter_eq_nil_iff]
      intro t ht
      simpa using h slot (by simp) t ht
    have h2 := ih (fun s hs t ht => h s (by simp [hs]) t ht)
    simp [idView, h1, List.replicate_succ] at h2 ⊢
    exact h2

theorem mod_advance_ne (n cur r : Nat) (hcur : cur < n) (hr : r < n) (hr0 : r ≠ 0) :
    (cur + r) % n ≠ cur := by
  by_cases h : cur + r < n
  · rw [Nat.mod_eq_of_lt h]
    omega
  · have h1 : cur + r - n < n := by omega
    rw [Nat.mod_eq_sub_mod (by omega), Nat.mod_eq_of_lt h1]
    omega

theorem mod_advance_step (n cur r : Nat) (hr0 : r ≠ 0) :
    ((cur + 1) % n + (r - 1)) % n = (cur + r) % n := by
  rw [Nat.mod_add_mod]
  congr 1
  omega

/-! ### One operation on a wheel that stores, or no longer stores, a task -/

theorem gone_step (w : TimerWheel) (id : Nat) (op : Op) (hg : Gone w id)
    (hroom : w.next_id_ + 1 < UINT64_MOD) :
    Gone (w.applyOp op).1 id ∧ firedOf id (w.applyOp op).2 = [] := by
  obtain ⟨hlen, hid, hview⟩ := hg
  cases op with
  | add timeout cb =>
    have hmod : (w.next_id_ + 1) % UINT64_MOD = w.next_id_ + 1 := Nat.mod_eq_of_lt hroom
    by_cases ht : timeout ≤ 0
    · simp only [TimerWheel.applyOp, TimerWheel.AddTimeout, ht, if_true, hmod, firedOf_map_inline]
      exact ⟨⟨hlen, by simp only []; omega, hview⟩, trivial⟩
    · simp only [TimerWheel.applyOp, TimerWheel.AddTimeout, ht, if_false, hmod,
        firedOf_map_inline]
      refine ⟨⟨by simpa using hlen, by simp only []; omega, ?_⟩, trivial⟩
      simp only []
      rw [idView_emplace_other _ _ _ _ (by simp only []; omega)]
      exact hview
  | cancel other =>
    simp only [TimerWheel.applyOp, TimerWheel.CancelTimeout, firedOf]
    refine ⟨?_, trivial⟩
    by_cases h0 : other = 0
    · simp only [h0, if_true]
      exact ⟨hlen, hid, hview⟩
    · simp only [h0, if_false]
      refine ⟨by simpa [cancelIn_length] using hlen, hid, ?_⟩
      simp only []
      by_cases he : id = other
      · subst he
        rw [idView_cancel_self, hview, clearFirst_replicate]
      · rw [idView_cancel_other _ _ _ he, hview]
  | tick =>
    simp only [TimerWheel.applyOp, TimerWheel.tick, firedOf_map_fired]
    refine ⟨⟨by simpa using hlen, hid, ?_⟩, ?_⟩
    · simp only []
      rw [idView_set, hview]
      simp [List.set_replicate_self]
    · rw [← idView_getD, hview, getD_replicate_nil]

theorem pending_step (w : TimerWheel) (task : TimerTask) (r : Nat) (op : Op)
    (hp : Pending w task r) (hroom : w.next_id_ + 1 < UINT64_MOD)
    (hcancel : op ≠ .cancel task.id) (htick : op = .tick → r ≠ 0) :
    Pending (w.applyOp op).1 task (if op = .tick then r - 1 else r) ∧
    firedOf task.id (w.applyOp op).2 = [] := by
  obtain ⟨hlen, hcur, hid0, hid, hr, hview⟩ := hp
  cases op with
  | add timeout cb =>
    have hmod : (w.next_id_ + 1) % UINT64_MOD = w.next_id_ + 1 := Nat.mod_eq_of_lt hroom
    by_cases ht : timeout ≤ 0
    · simp only [TimerWheel.applyOp, TimerWheel.AddTimeout, ht, if_true, hmod, firedOf_map_inline,
        reduceCtorEq, if_false]
      exact ⟨⟨hlen, hcur, hid0, by simp only []; omega, hr, hview⟩, trivial⟩
    · simp only [TimerWheel.applyOp, TimerWheel.AddTimeout, ht, if_false, hmod,
        firedOf_map_inline, reduceCtorEq]
      refine ⟨⟨by simpa using hlen, hcur, hid0, by simp only []; omega, hr, ?_⟩, trivial⟩
      simp only []
      rw [idView_emplace_other _ _ _ _ (by simp only []; omega)]
      exact hview
  | cancel other =>
    have hne : task.id ≠ other := fun e => hcancel (by rw [e])
    simp only [TimerWheel.applyOp, TimerWheel.CancelTimeout, firedOf, reduceCtorEq, if_false]
    refine ⟨?_, trivial⟩
    by_cases h0 : other = 0
    · simp only [h0, if_true]
      exact ⟨hlen, hcur, hid0, hid, hr, hview⟩
    · simp only [h0, if_false]
      refine ⟨by simpa [cancelIn_length] using hlen, hcur, hid0, hid, hr, ?_⟩
      simp only []
      rw [idView_cancel_other _ _ _ hne, hview]
  | tick =>
    have hr0 : r ≠ 0 := htick rfl
    have hpos : 0 < w.slots_ := by omega
    have hne := mod_advance_ne w.slots_ w.current_slot_ r hcur hr hr0
    have htgt : (w.current_slot_ + r) % w.slots_ < w.slots_ := Nat.mod_lt _ hpos
    simp only [TimerWheel.applyOp, TimerWheel.tick, firedOf_map_fired, if_true]
    refine ⟨⟨by simpa using hlen, Nat.mod_lt _ hpos, hid0, hid,
      (by show r - 1 < w.slots_; omega), ?_⟩, ?_⟩
    · simp only []
      rw [idView_set, hview, mod_advance_step _ _ _ hr0, List.set_comm _ _ _ hne]
      simp [List.set_replicate_self]
    · rw [← idView_getD, hview, getD_set_replicate _ _ _ _ htgt, if_neg (Ne.symm hne)]

theorem pending_tick_fires (w : TimerWheel) (task : TimerTask) (hp : Pending w task 0) :
    Gone (w.applyOp .tick).1 task.id ∧ firedOf task.id (w.applyOp .tick).2 = [task] := by
  obtain ⟨hlen, hcur, _, hid, _, hview⟩ := hp
  have htgt : (w.current_slot_ + 0) % w.slots_ = w.current_slot_ := by
    rw [Nat.add_zero, Nat.mod_eq_of_lt hcur]
  rw [htgt] at hview
  simp only [TimerWheel.applyOp, TimerWheel.tick, firedOf_map_fired]
  refine ⟨⟨by simpa using hlen, hid, ?_⟩, ?_⟩
  · simp only []
    rw [idView_set, hview]
    simp [List.set_set, List.set_replicate_self]
  · rw [← idView_getD, hview, getD_set_replicate _ _ _ _ hcur, if_pos rfl]

theorem pending_cancel (w : TimerWheel) (task : TimerTask) (r : Nat) (hp : Pending w task r) :
    Gone (w.applyOp (.cancel task.id)).1 task.id ∧
    firedOf task.id (w.applyOp (.cancel task.id)).2 = [] := by
  obtain ⟨hlen, _, hid0, hid, _, hview⟩ := hp
  simp only [TimerWheel.applyOp, TimerWheel.CancelTimeout, firedOf, hid0, if_false]
  refine ⟨⟨by simpa [cancelIn_length] using hlen, hid, ?_⟩, trivial⟩
  simp only []
  rw [idView_cancel_self, hview, clearFirst_set_replicate]

theorem add_pending (w : TimerWheel) (hwf : w.WellFormed) (d : Int) (cb : TimeoutCallback)
    (hd : 0 < d) (hroom : w.next_id_ + 1 < UINT64_MOD) :
    (w.AddTimeout d cb).2.1 = w.next_id_ + 1 ∧ (w.AddTimeout d cb).2.2 = [] ∧
    Pending (w.AddTimeout d cb).1 { id := w.next_id_ + 1, callback := cb }
      (w.ticksFor d % w.slots_) := by
  have hmod : (w.next_id_ + 1) % UINT64_MOD = w.next_id_ + 1 := Nat.mod_eq_of_lt hroom
  have hd2 : ¬ d ≤ 0 := by omega
  have htgt : (w.current_slot_ + w.ticksFor d) % w.slots_ < w.wheel_.length := by
    rw [hwf.len]
    exact Nat.mod_lt _ hwf.pos
  have habsent : idView (w.next_id_ + 1) w.wheel_ = List.replicate w.slots_ [] := by
    rw [← hwf.len]
    apply idView_absent
    intro slot hs t ht
    have := hwf.issued slot hs t ht
    omega
  have hslot : (w.wheel_.getD ((w.current_slot_ + w.ticksFor d) % w.slots_) []).filter
      (fun t => t.id == w.next_id_ + 1) = [] := by
    rw [← idView_getD, habsent, getD_replicate_nil]
  simp only [TimerWheel.AddTimeout, hd2, if_false, hmod]
  refine ⟨trivial, trivial, by simpa using hwf.len, hwf.cur, by simp, by simp,
    Nat.mod_lt _ hwf.pos, ?_⟩
  simp only []
  rw [idView_set, habsent, Nat.add_mod_mod]
  congr 1
  have hany : (w.wheel_.getD ((w.current_slot_ + w.ticksFor d) % w.slots_) []).any
      (fun t => t.id == w.next_id_ + 1) = false := by
    rw [any_id_eq_filter, hslot]
    rfl
  simp only [slotEmplace, hany, Bool.false_eq_true, if_false, List.filter_append, hslot]
  simp

/-! ### Sequences of operations -/

theorem run_append (w : TimerWheel) (a b : List Op) :
    w.run (a ++ b) = (((w.run a).1.run b).1, (w.run a).2 ++ ((w.run a).1.run b).2) := by
  induction a generalizing w with
  | nil => simp [TimerWheel.run]
  | cons op rest ih =>
    rw [List.cons_append, TimerWheel.run, ih]
    simp only [TimerWheel.run, List.append_assoc]

theorem applyOp_next_id_le (w : TimerWheel) (op : Op) (hroom : w.next_id_ + 1 < UINT64_MOD) :
    (w.applyOp op).1.next_id_ ≤ w.next_id_ + 1 := by
  have hmod : (w.next_id_ + 1) % UINT64_MOD = w.next_id_ + 1 := Nat.mod_eq_of_lt hroom
  cases op with
  | add timeout cb =>
    by_cases ht : timeout ≤ 0 <;> simp [TimerWheel.applyOp, TimerWheel.AddTimeout, ht, hmod]
  | cancel other =>
    by_cases h0 : other = 0 <;> simp [TimerWheel.applyOp, TimerWheel.CancelTimeout, h0]
  | tick => simp [TimerWheel.applyOp, TimerWheel.tick]

theorem gone_run (w : TimerWheel) (id : Nat) (ops : List Op) (hg : Gone w id)
    (hroom : w.next_id_ + ops.length < UINT64_MOD) :
    firedOf id (w.run ops).2 = [] := by
  induction ops generalizing w with
  | nil => rfl
  | cons op rest ih =>
    simp only [List.length_cons] at hroom
    have h1 : w.next_id_ + 1 < UINT64_MOD := by omega
    obtain ⟨hg1, hf1⟩ := gone_step w id op hg h1
    have hle := applyOp_next_id_le w op h1
    simp only [TimerWheel.run, firedOf_append, hf1, List.nil_append]
    exact ih _ hg1 (by omega)

theorem pending_run (w : TimerWheel) (task : TimerTask) (r : Nat) (pre : List Op)
    (hp : Pending w task r) (hroom : w.next_id_ + pre.length < UINT64_MOD)
    (hnc : Op.cancel task.id ∉ pre) (hticks : countTicks pre ≤ r) :
    Pending (w.run pre).1 task (r - countTicks pre) ∧ firedOf task.id (w.run pre).2 = [] ∧
    (w.run pre).1.next_id_ ≤ w.next_id_ + pre.length := by
  induction pre generalizing w r with
  | nil => exact ⟨by simpa [TimerWheel.run, countTicks] using hp, rfl, by simp [TimerWheel.run]⟩
  | cons op rest ih =>
    simp only [List.length_cons] at hroom
    have h1 : w.next_id_ + 1 < UINT64_MOD := by omega
    have hle := applyOp_next_id_le w op h1
    have hop : op ≠ .cancel task.id := fun e => hnc (by simp [e])
    have hrest : Op.cancel task.id ∉ rest := fun e => hnc (by simp [e])
    have htick : op = .tick → r ≠ 0 := by
      intro e
      subst e
      simp only [countTicks] at hticks
      omega
    obtain ⟨hp1, hf1⟩ := pending_step w task r op hp h1 hop htick
    have hcount : countTicks rest ≤ (if op = .tick then r - 1 else r) ∧
        (if op = .tick then r - 1 else r) - countTicks rest = r - countTicks (op :: rest) := by
      cases op <;> simp [countTicks] at hticks ⊢ <;> omega
    obtain ⟨hp2, hf2, hn2⟩ := ih _ _ hp1 (by omega) hrest hcount.1
    simp only [TimerWheel.run, firedOf_append, hf1, hf2, List.nil_append, List.length_cons]
    rw [hcount.2] at hp2
    exact ⟨hp2, trivial, by omega⟩

theorem pending_run_quiet (w : TimerWheel) (task : TimerTask) (r : Nat) (pre : List Op)
    (hp : Pending w task r) (hroom : w.next_id_ + pre.length < UINT64_MOD)
    (hticks : countTicks pre ≤ r) :
    firedOf task.id (w.run pre).2 = [] ∧ (w.run pre).1.next_id_ ≤ w.next_id_ + pre.length ∧
    ((∃ r1, Pending (w.run pre).1 task r1) ∨ Gone (w.run pre).1 task.id) := by
  induction pre generalizing w r with
  | nil => exact ⟨rfl, by simp [TimerWheel.run], Or.inl ⟨r, hp⟩⟩
  | cons op rest ih =>
    simp only [List.length_cons] at hroom
    have h1 : w.next_id_ + 1 < UINT64_MOD := by omega
    have hle := applyOp_next_id_le w op h1
    by_cases hop : op = .cancel task.id
    · subst hop
      obtain ⟨hg1, hf1⟩ := pending_cancel w task r hp
      have hf2 := gone_run _ task.id rest hg1 (by omega)
      have hstay : Gone ((w.applyOp (.cancel task.id)).1.run rest).1 task.id ∧
          ((w.applyOp (.cancel task.id)).1.run rest).1.next_id_ ≤
            (w.applyOp (.cancel task.id)).1.next_id_ + rest.length := by
        have hroom2 : (w.applyOp (.cancel task.id)).1.next_id_ + rest.length < UINT64_MOD := by
          omega
        generalize (w.applyOp (.cancel task.id)).1 = w1 at hg1 hroom2
        clear hf1 hf2 hle ih hp hticks hroom h1
        induction rest generalizing w1 with
        | nil => exact ⟨hg1, by simp [TimerWheel.run]⟩
        | cons o os ih2 =>
          simp only [List.length_cons] at hroom2
          have h3 : w1.next_id_ + 1 < UINT64_MOD := by omega
          have hle3 := applyOp_next_id_le w1 o h3
          obtain ⟨hg3, _⟩ := gone_step w1 task.id o hg1 h3
          obtain ⟨hg4, hn4⟩ := ih2 _ hg3 (by omega)
          exact ⟨hg4, by simp only [TimerWheel.run, List.length_cons]; omega⟩
      simp only [TimerWheel.run, firedOf_append, hf1, hf2, List.nil_append, List.length_cons]
      exact ⟨trivial, by omega, Or.inr hstay.1⟩
    · have htick : op = .tick → r ≠ 0 := by
        intro e
        subst e
        simp only [countTicks] at hticks
        omega
      obtain ⟨hp1, hf1⟩ := pending_step w task r op hp h1 hop htick
      have hcount : countTicks rest ≤ (if op = .tick then r - 1 else r) := by
        cases op <;> simp [countTicks] at hticks ⊢ <;> omega
      obtain ⟨hf2, hn2, hor⟩ := ih _ _ hp1 (by omega) hcount
      simp only [TimerWheel.run, firedOf_append, hf1, hf2, List.nil_append, List.length_cons]
      exact ⟨trivial, by omega, hor⟩

theorem gone_not_holds (w : TimerWheel) (id : Nat) (hg : Gone w id) : w.holds id = false := by
  obtain ⟨_, _, hview⟩ := hg
  unfold TimerWheel.holds
  rw [List.any_eq_false]
  intro slot hs
  have hmem : slot.filter (fun t => t.id == id) ∈ idView id w.wheel_ :=
    List.mem_map_of_mem _ hs
  rw [hview] at hmem
  have hnil := (List.mem_replicate.mp hmem).2
  simp [any_id_eq_filter, hnil]

theorem pending_holds (w : TimerWheel) (task : TimerTask) (r : Nat) (hp : Pending w task r) :
    w.holds task.id = true := by
  obtain ⟨hlen, hcur, _, _, _, hview⟩ := hp
  have hpos : 0 < w.slots_ := by omega
  have htgt : (w.current_slot_ + r) % w.slots_ < w.slots_ := Nat.mod_lt _ hpos
  have hget := idView_getD task.id w.wheel_ ((w.current_slot_ + r) % w.slots_)
  rw [hview, getD_set_replicate _ _ _ _ htgt, if_pos rfl] at hget
  unfold TimerWheel.holds
  rw [List.any_eq_true]
  refine ⟨w.wheel_.getD ((w.current_slot_ + r) % w.slots_) [], ?_, ?_⟩
  · rw [List.getD_eq_getElem _ _ (by omega)]
    exact List.getElem_mem _
  · rw [any_id_eq_filter, ← hget]
    rfl

theorem ticksFor_lt_slots (w : TimerWheel) (d : Int) (hpos : 0 < w.interval_) (hd : 0 < d)
    (hmax : d ≤ ((w.slots_ : Int) - 1) * w.interval_) : w.ticksFor d < w.slots_ := by
  unfold TimerWheel.ticksFor
  rw [Int.tdiv_eq_ediv (by omega) (by omega)]
  have h1 : (d + w.interval_ - 1) / w.interval_ < (w.slots_ : Int) := by
    apply Int.ediv_lt_of_lt_mul hpos
    have : ((w.slots_ : Int) - 1) * w.interval_ = (w.slots_ : Int) * w.interval_ - w.interval_ := by
      ring
    omega
  have h0 : 0 ≤ (d + w.interval_ - 1) / w.interval_ := Int.ediv_nonneg (by omega) (by omega)
  exact (Int.toNat_lt h0).mpr h1

theorem mem_getD_wheel (wheel : List (List TimerTask)) (i : Nat) (t : TimerTask)
    (h : t ∈ wheel.getD i []) : ∃ slot ∈ wheel, t ∈ slot := by
  induction wheel generalizing i with
  | nil => simp at h
  | cons slot rest ih =>
    cases i with
    | zero => exact ⟨slot, by simp, by simpa using h⟩
    | succ j =>
      obtain ⟨s, hs, ht⟩ := ih j (by simpa using h)
      exact ⟨s, by simp [hs], ht⟩

theorem mem_cancelIn (wheel : List (List TimerTask)) (id : Nat) (slot : List TimerTask)
    (t : TimerTask) (hs : slot ∈ cancelIn wheel id) (ht : t ∈ slot) :
    ∃ old ∈ wheel, t ∈ old := by
  induction wheel with
  | nil => simp [cancelIn] at hs
  | cons first rest ih =>
    unfold cancelIn at hs
    split_ifs at hs
    · rcases List.mem_cons.mp hs with e | e
      · subst e
        exact ⟨first, by simp, (List.mem_filter.mp ht).1⟩
      · exact ⟨slot, by simp [e], ht⟩
    · rcases List.mem_cons.mp hs with e | e
      · subst e
        exact ⟨slot, by simp, ht⟩
      · obtain ⟨old, ho, hto⟩ := ih e
        exact ⟨old, by simp [ho], hto⟩

/-- An operation invokes, and leaves in the wheel, only callbacks that were in
the wheel or that the operation itself registers. -/
theorem applyOp_callbacks (w : TimerWheel) (op : Op) (cb : TimeoutCallback)
    (hw : ∀ slot ∈ w.wheel_, ∀ t ∈ slot, t.callback ≠ cb)
    (hop : ∀ timeout, op ≠ .add timeout cb) :
    (∀ slot ∈ (w.applyOp op).1.wheel_, ∀ t ∈ slot, t.callback ≠ cb) ∧
    (∀ e ∈ (w.applyOp op).2, e.callback ≠ cb) := by
  cases op with
  | add timeout other =>
    have hne : other ≠ cb := fun e => hop timeout (by rw [e])
    by_cases ht : timeout ≤ 0
    · simp only [TimerWheel.applyOp, TimerWheel.AddTimeout, ht, if_true]
      refine ⟨hw, ?_⟩
      intro e he
      simp only [List.map_cons, List.map_nil, List.mem_singleton] at he
      subst he
      exact hne
    · simp only [TimerWheel.applyOp, TimerWheel.AddTimeout, ht, if_false]
      refine ⟨?_, by simp⟩
      intro slot hs t hts
      rcases List.mem_or_eq_of_mem_set hs with h | h
      · exact hw slot h t hts
      · subst h
        unfold slotEmplace at hts
        split_ifs at hts
        · obtain ⟨old, ho, hto⟩ := mem_getD_wheel _ _ _ hts
          exact hw old ho t hto
        · rcases List.mem_append.mp hts with h1 | h1
          · obtain ⟨old, ho, hto⟩ := mem_getD_wheel _ _ _ h1
            exact hw old ho t hto
          · simp only [List.mem_singleton] at h1
            subst h1
            exact hne
  | cancel other =>
    simp only [TimerWheel.applyOp, TimerWheel.CancelTimeout]
    refine ⟨?_, by simp⟩
    by_cases h0 : other = 0
    · simpa [h0] using hw
    · simp only [h0, if_false]
      intro slot hs t hts
      obtain ⟨old, ho, hto⟩ := mem_cancelIn _ _ _ _ hs hts
      exact hw old ho t hto
  | tick =>
    simp only [TimerWheel.applyOp, TimerWheel.tick]
    refine ⟨?_, ?_⟩
    · intro slot hs t hts
      rcases List.mem_or_eq_of_mem_set hs with h | h
      · exact hw slot h t hts
      · subst h
        simp at hts
    · intro e he
      obtain ⟨t, ht, rfl⟩ := List.mem_map.mp he
      obtain ⟨old, ho, hto⟩ := mem_getD_wheel _ _ _ ht
      exact hw old ho t hto

theorem run_callbacks (w : TimerWheel) (ops : List Op) (cb : TimeoutCallback)
    (hw : ∀ slot ∈ w.wheel_, ∀ t ∈ slot, t.callback ≠ cb)
    (hops : ∀ timeout, Op.add timeout cb ∉ ops) :
    ∀ e ∈ (w.run ops).2, e.callback ≠ cb := by
  induction ops generalizing w with
  | nil => simp [TimerWheel.run]
  | cons op rest ih =>
    have hop : ∀ timeout, op ≠ .add timeout cb := fun timeout e => hops timeout (by simp [e])
    obtain ⟨hw1, he1⟩ := applyOp_callbacks w op cb hw hop
    intro e he
    simp only [TimerWheel.run, List.mem_append] at he
    rcases he with h | h
    · exact he1 e h
    · exact ih _ hw1 (fun timeout hm => hops timeout (by simp [hm])) e h

theorem wheel60_wellFormed : wheel60.WellFormed where
  len := by decide
  pos := by decide
  cur := by decide
  interval_pos := by decide
  issued := by
    intro slot hs t ht
    have h := (List.mem_replicate.mp hs).2
    subst h
    simp at ht

/-! ## Claims on the timer wheel -/

/-- C7: in the sequential model of the wheel, for a task added by `AddTimeout`
with a positive delay (on a well-formed wheel, the id counter not wrapping), the
tick that drains its slot being the one after `ticksFor d % slots_` ticks:
if `CancelTimeout(id)` is applied before that tick, no tick of the whole
sequence invokes the task's callback; if no cancel precedes that tick, nothing
was invoked before it, the draining tick invokes the callback, the task is then
no longer in the wheel, and the whole sequence invokes it exactly once. -/
theorem C7_cancelled_never_else_once (w : TimerWheel) (d : Int) (cb : TimeoutCallback)
    (pre post : List Op) (hwf : w.WellFormed) (hd : 0 < d)
    (hroom : w.next_id_ + (pre.length + post.length + 2) < UINT64_MOD) :
    (countTicks pre ≤ w.ticksFor d % w.slots_ →
      firedOf (w.AddTimeout d cb).2.1
        ((w.AddTimeout d cb).1.run (pre ++ Op.cancel (w.AddTimeout d cb).2.1 :: post)).2 = []) ∧
    (Op.cancel (w.AddTimeout d cb).2.1 ∉ pre → countTicks pre = w.ticksFor d % w.slots_ →
      firedOf (w.AddTimeout d cb).2.1 ((w.AddTimeout d cb).1.run pre).2 = [] ∧
      firedOf (w.AddTimeout d cb).2.1 (((w.AddTimeout d cb).1.run pre).1.applyOp Op.tick).2 =
        [{ id := (w.AddTimeout d cb).2.1, callback := cb }] ∧
      (((w.AddTimeout d cb).1.run pre).1.applyOp Op.tick).1.holds (w.AddTimeout d cb).2.1 = false ∧
      firedOf (w.AddTimeout d cb).2.1 ((w.AddTimeout d cb).1.run (pre ++ Op.tick :: post)).2 =
        [{ id := (w.AddTimeout d cb).2.1, callback := cb }]) := by
  obtain ⟨hid, _, hp⟩ := add_pending w hwf d cb hd (by omega)
  have hn1 : (w.AddTimeout d cb).1.next_id_ = w.next_id_ + 1 := by
    have hmod : (w.next_id_ + 1) % UINT64_MOD = w.next_id_ + 1 := Nat.mod_eq_of_lt (by omega)
    by_cases ht : d ≤ 0 <;> simp [TimerWheel.AddTimeout, ht, hmod]
  rw [hid]
  generalize (w.AddTimeout d cb).1 = w1 at hp hn1
  constructor
  · intro hticks
    obtain ⟨hf, hn, hor⟩ := pending_run_quiet w1 _ _ pre hp (by omega) hticks
    rw [run_append]
    simp only [firedOf_append, TimerWheel.run]
    have hroom1 : (w1.run pre).1.next_id_ + 1 < UINT64_MOD := by omega
    have hgone : Gone ((w1.run pre).1.applyOp (.cancel (w.next_id_ + 1))).1 (w.next_id_ + 1) ∧
        firedOf (w.next_id_ + 1) ((w1.run pre).1.applyOp (.cancel (w.next_id_ + 1))).2 = [] := by
      rcases hor with ⟨r1, hp1⟩ | hg
      · exact pending_cancel _ _ r1 hp1
      · exact gone_step _ _ _ hg hroom1
    have hle := applyOp_next_id_le (w1.run pre).1 (.cancel (w.next_id_ + 1)) hroom1
    have hpost := gone_run _ _ post hgone.1 (by omega)
    rw [hf, hgone.2, hpost]
    rfl
  · intro hnc hticks
    obtain ⟨hp1, hf, hn⟩ := pending_run w1 _ _ pre hp (by omega) hnc (by omega)
    rw [hticks, Nat.sub_self] at hp1
    obtain ⟨hg, hfire⟩ := pending_tick_fires _ _ hp1
    have hroom1 : (w1.run pre).1.next_id_ + 1 < UINT64_MOD := by omega
    have hle := applyOp_next_id_le (w1.run pre).1 .tick hroom1
    have hpost := gone_run _ _ post hg (by omega)
    refine ⟨hf, hfire, gone_not_holds _ _ hg, ?_⟩
    rw [run_append]
    simp only [firedOf_append, TimerWheel.run]
    rw [hf, hfire, hpost]
    rfl

/-- Witness of C7: on the 60-slot, 10 ms wheel a 20 ms task is cancelled after
two ticks, or fired by the third tick. -/
theorem C7_cancelled_never_else_once_witness :
    firedOf 1 ((wheel60.AddTimeout 20 7).1.run
      ([Op.tick, Op.tick] ++ Op.cancel 1 :: [Op.tick, Op.tick])).2 = [] ∧
    firedOf 1 ((wheel60.AddTimeout 20 7).1.run
      ([Op.tick, Op.tick] ++ Op.tick :: [Op.tick, Op.tick])).2 = [{ id := 1, callback := 7 }] :=
  ⟨(C7_cancelled_never_else_once wheel60 20 7 [Op.tick, Op.tick] [Op.tick, Op.tick]
      wheel60_wellFormed (by decide) (by decide)).1 (by decide),
   ((C7_cancelled_never_else_once wheel60 20 7 [Op.tick, Op.tick] [Op.tick, Op.tick]
      wheel60_wellFormed (by decide) (by decide)).2 (by decide) (by decide)).2.2.2⟩

/-- C8 (as stated, refuted): on the 60-slot, 10 ms wheel a task added with the
delay `600 = slot_count * tick` goes to the current slot and is drained by the
first tick after the add, which is among the first `ceil(600 / 10) = 60`. -/
theorem C8_full_turn_fires_at_once :
    (0 : Int) < 600 ∧ (600 : Int) ≤ (wheel60.slots_ : Int) * wheel60.interval_ ∧
    (wheel60.AddTimeout 600 7).2.1 = 1 ∧
    countTicks [Op.tick] ≤ wheel60.ticksFor 600 ∧
    firedOf 1 ((wheel60.AddTimeout 600 7).1.run [Op.tick]).2 = [{ id := 1, callback := 7 }] := by
  decide

/-- C8 (amended): for every well-formed wheel and every delay `d` with
`0 < d ≤ (slot_count - 1) * tick`, a task added by `AddTimeout(d, cb)` and not
cancelled is not drained by any of the first `ceil(d / tick)` ticks that follow
the add: over any sequence of operations with at most that many ticks and no
cancel of its id, its callback is not invoked and the task is still stored. -/
theorem C8_not_drained_early (w : TimerWheel) (d : Int) (cb : TimeoutCallback) (ops : List Op)
    (hwf : w.WellFormed) (hd : 0 < d) (hmax : d ≤ ((w.slots_ : Int) - 1) * w.interval_)
    (hnc : Op.cancel (w.AddTimeout d cb).2.1 ∉ ops) (hticks : countTicks ops ≤ w.ticksFor d)
    (hroom : w.next_id_ + (ops.length + 1) < UINT64_MOD) :
    firedOf (w.AddTimeout d cb).2.1 ((w.AddTimeout d cb).1.run ops).2 = [] ∧
    ((w.AddTimeout d cb).1.run ops).1.holds (w.AddTimeout d cb).2.1 = true := by
  obtain ⟨hid, _, hp⟩ := add_pending w hwf d cb hd (by omega)
  have hlt := ticksFor_lt_slots w d hwf.interval_pos hd hmax
  rw [Nat.mod_eq_of_lt hlt] at hp
  have hn1 : (w.AddTimeout d cb).1.next_id_ = w.next_id_ + 1 := by
    have hmod : (w.next_id_ + 1) % UINT64_MOD = w.next_id_ + 1 := Nat.mod_eq_of_lt (by omega)
    by_cases ht : d ≤ 0 <;> simp [TimerWheel.AddTimeout, ht, hmod]
  rw [hid] at hnc ⊢
  obtain ⟨hp1, hf, _⟩ := pending_run _ _ _ ops hp (by omega) hnc hticks
  exact ⟨hf, pending_holds _ _ _ hp1⟩

/-- Witness of C8 (amended): the 300 ms task of `TestSingleTimer` on the 60-slot,
10 ms wheel is still stored, and not fired, after 30 ticks. -/
theorem C8_not_drained_early_witness :
    firedOf 1 ((wheel60.AddTimeout 300 7).1.run (List.replicate 30 Op.tick)).2 = [] ∧
    ((wheel60.AddTimeout 300 7).1.run (List.replicate 30 Op.tick)).1.holds 1 = true :=
  C8_not_drained_early wheel60 300 7 (List.replicate 30 Op.tick) wheel60_wellFormed
    (by decide) (by decide) (by decide) (by decide) (by decide)

/-- C9: for every wheel and every delay `d ≤ 0`, `AddTimeout(d, cb)` invokes `cb`
exactly once during the call and stores no task (the slots and the slot pointer
are unchanged); hence in every later sequence of operations that does not
register `cb` again, on a wheel that held no task with `cb`, no tick and no
call invokes `cb`. -/
theorem C9_nonpositive_delay_runs_inline (w : TimerWheel) (d : Int) (cb : TimeoutCallback)
    (hd : d ≤ 0) :
    (w.AddTimeout d cb).2.2 = [cb] ∧
    (w.AddTimeout d cb).1.wheel_ = w.wheel_ ∧
    (w.AddTimeout d cb).1.current_slot_ = w.current_slot_ ∧
    (∀ ops : List Op, (∀ slot ∈ w.wheel_, ∀ t ∈ slot, t.callback ≠ cb) →
      (∀ timeout, Op.add timeout cb ∉ ops) →
      ∀ e ∈ ((w.AddTimeout d cb).1.run ops).2, e.callback ≠ cb) := by
  have h1 : (w.AddTimeout d cb).1.wheel_ = w.wheel_ := by simp [TimerWheel.AddTimeout, hd]
  refine ⟨by simp [TimerWheel.AddTimeout, hd], h1, by simp [TimerWheel.AddTimeout, hd], ?_⟩
  intro ops hw hops
  exact run_callbacks _ ops cb (by rw [h1]; exact hw) hops

/-- Witness of C9: delay `0` on the 60-slot wheel, followed by a full turn. -/
theorem C9_nonpositive_delay_runs_inline_witness :
    (wheel60.AddTimeout 0 7).2.2 = [7] ∧
    (wheel60.AddTimeout 0 7).1.wheel_ = wheel60.wheel_ ∧
    (∀ e ∈ ((wheel60.AddTimeout 0 7).1.run (List.replicate 60 Op.tick)).2, e.callback ≠ 7) :=
  ⟨(C9_nonpositive_delay_runs_inline wheel60 0 7 (by decide)).1,
   (C9_nonpositive_delay_runs_inline wheel60 0 7 (by decide)).2.1,
   (C9_nonpositive_delay_runs_inline wheel60 0 7 (by decide)).2.2.2 (List.replicate 60 Op.tick)
     (by
       intro slot hs t ht
       have h := (List.mem_replicate.mp hs).2
       subst h
       simp at ht)
     (by
       intro timeout hm
       have h := (List.mem_replicate.mp hm).2
       cases h)⟩

/-! ## The wheel invariant is established and kept -/

theorem new_wellFormed (slots : Nat) (interval : Int) (w : TimerWheel)
    (h : TimerWheel.new slots interval = some w) : w.WellFormed := by
  unfold TimerWheel.new at h
  split_ifs at h with h1 h2
  simp only [Option.some.injEq] at h
  subst h
  refine ⟨by simp, by simp only []; omega, by simp only []; omega, by simp only []; omega, ?_⟩
  intro slot hs t ht
  have hnil := (List.mem_replicate.mp hs).2
  subst hnil
  simp at ht

theorem applyOp_wellFormed (w : TimerWheel) (op : Op) (hwf : w.WellFormed)
    (hroom : w.next_id_ + 1 < UINT64_MOD) : (w.applyOp op).1.WellFormed := by
  have hmod : (w.next_id_ + 1) % UINT64_MOD = w.next_id_ + 1 := Nat.mod_eq_of_lt hroom
  cases op with
  | add timeout cb =>
    by_cases ht : timeout ≤ 0
    · simp only [TimerWheel.applyOp, TimerWheel.AddTimeout, ht, if_true, hmod]
      refine ⟨hwf.len, hwf.pos, hwf.cur, hwf.interval_pos, ?_⟩
      intro slot hs t hts
      have := hwf.issued slot hs t hts
      simp only []
      omega
    · simp only [TimerWheel.applyOp, TimerWheel.AddTimeout, ht, if_false, hmod]
      refine ⟨by simpa using hwf.len, hwf.pos, hwf.cur, hwf.interval_pos, ?_⟩
      intro slot hs t hts
      simp only []
      rcases List.mem_or_eq_of_mem_set hs with h | h
      · have := hwf.issued slot h t hts
        omega
      · subst h
        unfold slotEmplace at hts
        split_ifs at hts
        · obtain ⟨old, ho, hto⟩ := mem_getD_wheel _ _ _ hts
          have := hwf.issued old ho t hto
          omega
        · rcases List.mem_append.mp hts with h1 | h1
          · obtain ⟨old, ho, hto⟩ := mem_getD_wheel _ _ _ h1
            have := hwf.issued old ho t hto
            omega
          · simp only [List.mem_singleton] at h1
            subst h1
            simp
  | cancel other =>
    simp only [TimerWheel.applyOp, TimerWheel.CancelTimeout]
    by_cases h0 : other = 0
    · simpa [h0] using hwf
    · simp only [h0, if_false]
      refine ⟨by simpa [cancelIn_length] using hwf.len, hwf.pos, hwf.cur, hwf.interval_pos, ?_⟩
      intro slot hs t hts
      obtain ⟨old, ho, hto⟩ := mem_cancelIn _ _ _ _ hs hts
      exact hwf.issued old ho t hto
  | tick =>
    simp only [TimerWheel.applyOp, TimerWheel.tick]
    refine ⟨by simpa using hwf.len, hwf.pos, Nat.mod_lt _ hwf.pos, hwf.interval_pos, ?_⟩
    intro slot hs t hts
    rcases List.mem_or_eq_of_mem_set hs with h | h
    · exact hwf.issued slot h t hts
    · subst h
      simp at hts

/-! ## Lemmas on the server's idle timeout -/

theorem findKey_assignKey_self {α : Type} (m : List (SOCKET × α)) (key : SOCKET) (value : α) :
    findKey (assignKey m key value) key = some value := by
  induction m with
  | nil => simp [assignKey, findKey]
  | cons e rest ih =>
    obtain ⟨k, v⟩ := e
    by_cases h : k = key
    · simp [assignKey, findKey, h]
    · simp [assignKey, findKey, h, ih]

theorem findKey_eraseKey_self {α : Type} (m : List (SOCKET × α)) (key : SOCKET) :
    findKey (eraseKey m key) key = none := by
  induction m with
  | nil => rfl
  | cons e rest ih =>
    obtain ⟨k, v⟩ := e
    by_cases h : k = key
    · simpa [eraseKey, List.filter_cons, h] using ih
    · simpa [eraseKey, List.filter_cons, h, findKey] using ih

theorem findKey_eraseKey_none {α : Type} (m : List (SOCKET × α)) (key other : SOCKET)
    (hnone : findKey m key = none) : findKey (eraseKey m other) key = none := by
  induction m with
  | nil => rfl
  | cons e rest ih =>
    obtain ⟨k, v⟩ := e
    by_cases hk : k = key
    · simp [findKey, hk] at hnone
    · simp only [findKey, hk, if_false] at hnone
      by_cases ho : k = other
      · simpa [eraseKey, List.filter_cons, ho] using ih hnone
      · simpa [eraseKey, List.filter_cons, ho, findKey, hk] using ih hnone

/-- Teardown of any socket keeps a torn-down connection torn down. -/
theorem close_keeps_closed (sv : IocpServer) (s other : SOCKET)
    (h : sv.registered s = false ∧ s ∈ sv.closed) :
    (sv.CloseClientSocket other).registered s = false ∧ s ∈ (sv.CloseClientSocket other).closed := by
  obtain ⟨hreg, hcl⟩ := h
  have hnone : findKey sv.clients_ s = none := by
    simpa [IocpServer.registered] using hreg
  have herase := findKey_eraseKey_none sv.clients_ s other hnone
  unfold IocpServer.CloseClientSocket
  split_ifs
  · split <;> simp [IocpServer.registered, herase, hcl]
  · exact ⟨hreg, hcl⟩

/-- Teardown of a valid socket removes it from the registry and closes it. -/
theorem close_closes (sv : IocpServer) (s : SOCKET) (hs : s ≠ INVALID_SOCKET) :
    (sv.CloseClientSocket s).registered s = false ∧ s ∈ (sv.CloseClientSocket s).closed := by
  have herase := findKey_eraseKey_self sv.clients_ s
  unfold IocpServer.CloseClientSocket
  rw [if_pos hs]
  split <;> simp [IocpServer.registered, herase]

theorem fold_close_keeps (tasks : List TimerTask) (sv : IocpServer) (s : SOCKET)
    (h : sv.registered s = false ∧ s ∈ sv.closed) :
    (tasks.foldl (fun x task => x.CloseClientSocket task.callback) sv).registered s = false ∧
    s ∈ (tasks.foldl (fun x task => x.CloseClientSocket task.callback) sv).closed := by
  induction tasks generalizing sv with
  | nil => exact h
  | cons t rest ih => exact ih _ (close_keeps_closed sv s t.callback h)

theorem fold_close_closes (tasks : List TimerTask) (sv : IocpServer) (s : SOCKET)
    (hs : s ≠ INVALID_SOCKET) (hmem : ∃ t ∈ tasks, t.callback = s) :
    (tasks.foldl (fun x task => x.CloseClientSocket task.callback) sv).registered s = false ∧
    s ∈ (tasks.foldl (fun x task => x.CloseClientSocket task.callback) sv).closed := by
  induction tasks generalizing sv with
  | nil => simp at hmem
  | cons t rest ih =>
    obtain ⟨x, hx, hcb⟩ := hmem
    rcases List.mem_cons.mp hx with e | e
    · subst e
      rw [List.foldl_cons, hcb]
      exact fold_close_keeps rest _ s (close_closes sv s hs)
    · exact ih _ ⟨x, e, hcb⟩

/-- On a wheel of 60 slots 10 ms apart the delay of 120 s is 12000 ticks, a whole
number of turns. -/
theorem idle_timeout_whole_turns (w : TimerWheel) (h60 : w.slots_ = 60) (h10 : w.interval_ = 10) :
    w.ticksFor IDLE_TIMEOUT_MS = 12000 ∧ w.ticksFor IDLE_TIMEOUT_MS % w.slots_ = 0 := by
  have h : w.ticksFor IDLE_TIMEOUT_MS = 12000 := by
    unfold TimerWheel.ticksFor
    rw [h10]
    decide
  rw [h, h60]
  exact ⟨rfl, by decide⟩

/-- Whatever the state of the server, on its 60-slot, 10 ms wheel the connection
registered by `HandleAccept` is torn down by the first tick after the accept. -/
theorem accept_closed_by_next_tick (sv : IocpServer) (s : SOCKET)
    (hwf : sv.timer_.WellFormed) (h60 : sv.timer_.slots_ = 60) (h10 : sv.timer_.interval_ = 10)
    (hs : s ≠ INVALID_SOCKET) (hroom : sv.timer_.next_id_ + 1 < UINT64_MOD) :
    (sv.HandleAccept s true true).registered s = true ∧
    (sv.HandleAccept s true true).timerTick.registered s = false ∧
    s ∈ (sv.HandleAccept s true true).timerTick.closed := by
  obtain ⟨hid, _, hp⟩ := add_pending sv.timer_ hwf IDLE_TIMEOUT_MS s (by decide) hroom
  rw [(idle_timeout_whole_turns sv.timer_ h60 h10).2] at hp
  obtain ⟨_, hfire⟩ := pending_tick_fires _ _ hp
  simp only [TimerWheel.applyOp, firedOf_map_fired] at hfire
  have hmem : ({ id := sv.timer_.next_id_ + 1, callback := s } : TimerTask) ∈
      (sv.timer_.AddTimeout IDLE_TIMEOUT_MS s).1.tick.2 := by
    have : ({ id := sv.timer_.next_id_ + 1, callback := s } : TimerTask) ∈
        List.filter (fun t => t.id == sv.timer_.next_id_ + 1)
          (sv.timer_.AddTimeout IDLE_TIMEOUT_MS s).1.tick.2 := by
      rw [hfire]
      simp
    exact (List.mem_filter.mp this).1
  refine ⟨?_, ?_⟩
  · simp [IocpServer.HandleAccept, IocpServer.registered, findKey_assignKey_self]
  · simp only [IocpServer.HandleAccept, if_true, IocpServer.timerTick]
    exact fold_close_closes _ _ s hs ⟨_, hmem, rfl⟩

/-! ## Claim on the server's idle timeout -/

set_option maxRecDepth 100000 in
/-- C10 (the code at the failing input): after `Initialize` and any of 0, 7 or 59
ticks, the connection registered by `HandleAccept` for socket 5 is torn down by
the first tick of the timer thread that follows: the 120 s delay is 12000 ticks,
a whole number of turns of the 60-slot wheel, so the task is stored in the
current slot. The claim gives it 12000 ticks. -/
theorem C10_accepted_connection_closed_after_one_tick :
    IocpServer.Initialize.timer_.ticksFor IDLE_TIMEOUT_MS = 12000 ∧
    (IocpServer.Initialize.HandleAccept 5 true true).registered 5 = true ∧
    (IocpServer.Initialize.HandleAccept 5 true true).timerTick.registered 5 = false ∧
    (IocpServer.Initialize.HandleAccept 5 true true).timerTick.closed = [5] ∧
    (((IocpServer.Initialize.timerTicks 7).HandleAccept 5 true true).timerTick).closed = [5] ∧
    (((IocpServer.Initialize.timerTicks 59).HandleAccept 5 true true).timerTick).closed = [5] := by
  decide

/-! ## Stability of the parser's verdict -/

theorem parse_success_complete (p : HttpParser) (data : Bytes)
    (h : (p.parse data).1 = .SUCCESS) : (p.parse data).2.state_ = .COMPLETE := by
  induction data generalizing p with
  | nil =>
    simp only [HttpParser.parse] at h ⊢
    by_contra hne
    simp [hne] at h
  | cons c rest ih =>
    rw [HttpParser.parse] at h ⊢
    cases hs : p.step c with
    | next q =>
      rw [hs] at h
      exact ih q h
    | ret st =>
      rw [hs] at h
      simp only at h
      rcases step_ret_cases p c st hs with hf | ⟨_, hc⟩
      · rw [hf] at h
        cases h
      · exact hc

/-- C19: for all byte sequences `a` and `b`, if a fresh parser returns `SUCCESS`
on `a` then a fresh parser returns `SUCCESS` on `a` followed by `b`, with the
same request fields, and if it returns `FAILED` on `a` then it returns `FAILED`
on `a` followed by `b`. -/
theorem C19_verdict_stable_under_extension (a b : Bytes) :
    ((HttpParser.new.parse a).1 = .SUCCESS →
      (HttpParser.new.parse (a ++ b)).1 = .SUCCESS ∧
      (HttpParser.new.parse (a ++ b)).2.request = (HttpParser.new.parse a).2.request) ∧
    ((HttpParser.new.parse a).1 = .FAILED → (HttpParser.new.parse (a ++ b)).1 = .FAILED) := by
  constructor
  · intro h
    have hc := parse_success_complete _ _ h
    rw [parse_append, if_neg (by rw [h]; decide), parse_complete _ b hc]
    exact ⟨rfl, rfl⟩
  · intro h
    rw [parse_append, if_pos h]
    exact h

/-- Witness of C19: a complete `GET` followed by more bytes, and an unknown
method followed by more bytes. -/
theorem C19_verdict_stable_under_extension_witness :
    ((HttpParser.new.parse ("GET / HTTP/1.1\r\n\r\n".toList ++ "GET /next".toList)).1 = .SUCCESS ∧
      (HttpParser.new.parse ("GET / HTTP/1.1\r\n\r\n".toList ++ "GET /next".toList)).2.request =
        (HttpParser.new.parse "GET / HTTP/1.1\r\n\r\n".toList).2.request) ∧
    (HttpParser.new.parse ("X ".toList ++ "GET / HTTP/1.1\r\n\r\n".toList)).1 = .FAILED :=
  ⟨(C19_verdict_stable_under_extension "GET / HTTP/1.1\r\n\r\n".toList "GET /next".toList).1
      (by decide),
   (C19_verdict_stable_under_extension "X ".toList "GET / HTTP/1.1\r\n\r\n".toList).2
      (by decide)⟩

/-! ## Teardown -/

theorem eraseKey_eraseKey {α : Type} (m : List (SOCKET × α)) (key : SOCKET) :
    eraseKey (eraseKey m key) key = eraseKey m key := by
  simp [eraseKey, List.filter_filter]

/-- C12 (as stated, refuted): after `Initialize` and the accept of socket 5, two
calls of `CloseClientSocket(5)` pass the socket to `closesocket` twice. -/
theorem C12_second_teardown_closes_again :
    (((IocpServer.Initialize.HandleAccept 5 true true).CloseClientSocket 5).CloseClientSocket
      5).closed = [5, 5] ∧
    ((IocpServer.Initialize.HandleAccept 5 true true).CloseClientSocket 5).closed = [5] := by
  decide

/-- C12 (amended): for every server state and every valid connection handle `s`,
after the first `CloseClientSocket(s)` the handle is absent from the registry
and from the timeout-id map and the timer task recorded for it, stored once in
the wheel, is no longer stored; the second call changes neither the registry,
nor the timeout-id map, nor the wheel. Each of the two calls passes `s` to
`closesocket`. -/
theorem C12_second_teardown_keeps_state (sv : IocpServer) (s : SOCKET)
    (hs : s ≠ INVALID_SOCKET) :
    (sv.CloseClientSocket s).registered s = false ∧
    findKey (sv.CloseClientSocket s).timeout_ids_ s = none ∧
    (∀ id r, findKey sv.timeout_ids_ s = some id →
      Pending sv.timer_ { id := id, callback := s } r →
      (sv.CloseClientSocket s).timer_.holds id = false) ∧
    ((sv.CloseClientSocket s).CloseClientSocket s).clients_ = (sv.CloseClientSocket s).clients_ ∧
    ((sv.CloseClientSocket s).CloseClientSocket s).timeout_ids_ =
      (sv.CloseClientSocket s).timeout_ids_ ∧
    ((sv.CloseClientSocket s).CloseClientSocket s).timer_ = (sv.CloseClientSocket s).timer_ ∧
    ((sv.CloseClientSocket s).CloseClientSocket s).closed = sv.closed ++ [s, s] := by
  have hnone : findKey (sv.CloseClientSocket s).timeout_ids_ s = none := by
    unfold IocpServer.CloseClientSocket
    rw [if_pos hs]
    cases hf : findKey sv.timeout_ids_ s with
    | none => simpa using hf
    | some id => simpa using findKey_eraseKey_self sv.timeout_ids_ s
  have hsecond : ∀ x : IocpServer, findKey x.timeout_ids_ s = none →
      x.CloseClientSocket s =
        { x with clients_ := eraseKey x.clients_ s, closed := x.closed ++ [s] } := by
    intro x hx
    unfold IocpServer.CloseClientSocket
    rw [if_pos hs, hx]
  refine ⟨(close_closes sv s hs).1, hnone, ?_, ?_, ?_, ?_, ?_⟩
  · intro id r hid hp
    have hg := (pending_cancel sv.timer_ _ r hp).1
    have := gone_not_holds _ _ hg
    unfold IocpServer.CloseClientSocket
    rw [if_pos hs, hid]
    simpa [TimerWheel.applyOp] using this
  · rw [hsecond _ hnone]
    unfold IocpServer.CloseClientSocket
    rw [if_pos hs]
    cases hf : findKey sv.timeout_ids_ s <;> simp [eraseKey_eraseKey]
  · rw [hsecond _ hnone]
  · rw [hsecond _ hnone]
  · rw [hsecond _ hnone]
    unfold IocpServer.CloseClientSocket
    rw [if_pos hs]
    cases hf : findKey sv.timeout_ids_ s <;> simp

set_option maxRecDepth 100000 in
/-- Witness of C12 (amended): the connection accepted on socket 5 after
`Initialize`. -/
theorem C12_second_teardown_keeps_state_witness :
    ((IocpServer.Initialize.HandleAccept 5 true true).CloseClientSocket 5).registered 5 = false ∧
    ((IocpServer.Initialize.HandleAccept 5 true true).CloseClientSocket 5).timer_.holds 1 = false ∧
    (((IocpServer.Initialize.HandleAccept 5 true true).CloseClientSocket 5).CloseClientSocket
      5).timer_ = ((IocpServer.Initialize.HandleAccept 5 true true).CloseClientSocket 5).timer_ :=
  ⟨(C12_second_teardown_keeps_state (IocpServer.Initialize.HandleAccept 5 true true) 5
      (by decide)).1,
   (C12_second_teardown_keeps_state (IocpServer.Initialize.HandleAccept 5 true true) 5
      (by decide)).2.2.1 1 0 (by decide)
      (add_pending wheel60 wheel60_wellFormed IDLE_TIMEOUT_MS 5 (by decide) (by decide)).2.2,
   (C12_second_teardown_keeps_state (IocpServer.Initialize.HandleAccept 5 true true) 5
      (by decide)).2.2.2.2.2.1⟩

/-! ## Request dispatch -/

theorem take_min_length (l : Bytes) (n : Nat) : l.take (min l.length n) = l.take n := by
  by_cases h : l.length ≤ n
  · rw [Nat.min_eq_left h, List.take_of_length_le (Nat.le_refl _), List.take_of_length_le h]
  · rw [Nat.min_eq_right (by omega)]

/-- `GET /` with `index.html` present: the descriptor handed to `PostSend` holds
the first `BUFFER_SIZE` bytes of the `200` response. -/
theorem process_index (files : FileSystem) (content : Bytes) (sock : SOCKET)
    (request : HttpRequest) (huri : request.uri = "/".toList)
    (hfile : files "index.html".toList = some content) :
    IocpServer.ProcessHttpRequest files sock request =
      some { operation := .SEND, socket := sock,
             buffer := (expectedIndexResponse content).take BUFFER_SIZE } := by
  have hct : contentTypeOf "index.html".toList = "text/html".toList := by decide
  have hpath : containsDotDot "/index.html".toList = false := by decide
  have hsub : substr1 "/index.html".toList = some "index.html".toList := by decide
  have hst : statusTexts 200 = some "OK".toList := by decide
  have hdec : decimal (200 : Int).toNat = "200".toList := by decide
  simp only [IocpServer.ProcessHttpRequest, huri, if_true, hpath, Bool.false_eq_true, if_false,
    hsub, hfile, hct, BuildHttpResponse, hst, hdec, Option.map_some', PerIoData.withData,
    take_min_length]
  simp [expectedIndexResponse, String.toList]

theorem take_append_replicate (hdr : Bytes) (k m : Nat) (a : Char) :
    (hdr ++ List.replicate (k + m) a).take (hdr.length + k) = hdr ++ List.replicate k a := by
  rw [List.take_append, List.take_replicate, Nat.min_eq_left (Nat.le_add_right k m)]

theorem containsDotDot_ne_root (uri : Bytes) (h : containsDotDot uri = true) :
    uri ≠ "/".toList := by
  intro e
  rw [e] at h
  exact absurd h (by decide)

/-- A path with `..`: the descriptor handed to `PostSend` holds the `400`
response, whatever the files. -/
theorem process_dotdot (files : FileSystem) (sock : SOCKET) (request : HttpRequest)
    (h : containsDotDot request.uri = true) :
    IocpServer.ProcessHttpRequest files sock request =
      some { operation := .SEND, socket := sock, buffer := badRequestResponse } := by
  have hb : BuildHttpResponse "Invalid path".toList "text/plain".toList 400 =
      some badRequestResponse := by decide
  have ht : badRequestResponse.take (min badRequestResponse.length BUFFER_SIZE) =
      badRequestResponse := by decide
  simp only [IocpServer.ProcessHttpRequest, containsDotDot_ne_root _ h, if_false, h, if_true, hb,
    Option.map_some', PerIoData.withData, ht]

/-- C14 (as stated, refuted): with an `index.html` of 8192 bytes `a`, the
descriptor handed to the send operation for `GET /` holds 8192 bytes, the
headers (which announce `Content-Length: 8192`) followed by only 8102 bytes of
the content: the constructor of `PerIoData` copies at most `BUFFER_SIZE` bytes
of the response. -/
theorem C14_large_index_truncated :
    IocpServer.ProcessHttpRequest (onlyIndex (List.replicate 8192 'a')) 5
        (HttpParser.new.parse "GET / HTTP/1.1\r\n\r\n".toList).2.request =
      some { operation := .SEND, socket := 5,
             buffer := ("HTTP/1.1 200 OK\r\nContent-Type: text/html\r\nContent-Length: 8192\r\n"
               ++ "Connection: keep-alive\r\n\r\n").toList ++ List.replicate 8102 'a' } := by
  have hfile : onlyIndex (List.replicate 8192 'a') "index.html".toList =
      some (List.replicate 8192 'a') := if_pos rfl
  have hdec : decimal 8192 = "8192".toList := by decide
  have hresp : expectedIndexResponse (List.replicate 8192 'a') =
      ("HTTP/1.1 200 OK\r\nContent-Type: text/html\r\nContent-Length: 8192\r\n"
        ++ "Connection: keep-alive\r\n\r\n").toList ++ List.replicate (8102 + 90) 'a' := by
    unfold expectedIndexResponse
    rw [List.length_replicate, hdec]
    rfl
  have hlen : BUFFER_SIZE =
      ("HTTP/1.1 200 OK\r\nContent-Type: text/html\r\nContent-Length: 8192\r\n"
        ++ "Connection: keep-alive\r\n\r\n").toList.length + 8102 := by decide
  rw [process_index _ _ 5 _ (by decide) hfile, hresp, hlen, take_append_replicate]

/-- C14 (amended): for every content `c` of `index.html` in the document root,
handling the request `GET / HTTP/1.1` (which parses to `SUCCESS`) hands to the
send operation the first 8192 bytes of the response that begins
`HTTP/1.1 200 OK`, carries `Content-Length: <length of c>` and has `c` as body;
when that response is at most 8192 bytes long, it is handed whole. -/
theorem C14_index_served_up_to_buffer (files : FileSystem) (c : Bytes) (sock : SOCKET)
    (hfile : files "index.html".toList = some c) :
    (HttpParser.new.parse "GET / HTTP/1.1\r\n\r\n".toList).1 = .SUCCESS ∧
    IocpServer.ProcessHttpRequest files sock
        (HttpParser.new.parse "GET / HTTP/1.1\r\n\r\n".toList).2.request =
      some { operation := .SEND, socket := sock,
             buffer := (expectedIndexResponse c).take BUFFER_SIZE } ∧
    ((expectedIndexResponse c).length ≤ BUFFER_SIZE →
      IocpServer.ProcessHttpRequest files sock
          (HttpParser.new.parse "GET / HTTP/1.1\r\n\r\n".toList).2.request =
        some { operation := .SEND, socket := sock, buffer := expectedIndexResponse c }) := by
  have h := process_index files c sock
    (HttpParser.new.parse "GET / HTTP/1.1\r\n\r\n".toList).2.request (by decide) hfile
  refine ⟨by decide, h, ?_⟩
  intro hlen
  rw [h, List.take_of_length_le hlen]

/-- Witness of C14 (amended): `index.html` holds `hi`. -/
theorem C14_index_served_up_to_buffer_witness :
    IocpServer.ProcessHttpRequest (onlyIndex "hi".toList) 5
        (HttpParser.new.parse "GET / HTTP/1.1\r\n\r\n".toList).2.request =
      some { operation := .SEND, socket := 5, buffer := expectedIndexResponse "hi".toList } ∧
    expectedIndexResponse "hi".toList =
      ("HTTP/1.1 200 OK\r\nContent-Type: text/html\r\nContent-Length: 2\r\n"
        ++ "Connection: keep-alive\r\n\r\nhi").toList :=
  ⟨(C14_index_served_up_to_buffer (onlyIndex "hi".toList) "hi".toList 5 (by decide)).2.2
      (by decide),
   by decide⟩

/-- C15: for every parsed request whose URI contains `..`, `ProcessHttpRequest`
hands exactly one response to `PostSend`, the `400 Bad Request` response, the
same for any two file systems; in the handler, one send descriptor is allocated
and issued and nothing else changes. -/
theorem C15_dotdot_bad_request (files other : FileSystem) (sock : SOCKET) (request : HttpRequest)
    (w : World) (h : containsDotDot request.uri = true) :
    IocpServer.ProcessHttpRequest files sock request =
      some { operation := .SEND, socket := sock, buffer := badRequestResponse } ∧
    IocpServer.ProcessHttpRequest other sock request =
      IocpServer.ProcessHttpRequest files sock request ∧
    w.ProcessHttpRequest files sock request true =
      .ok { w with
        descriptors := w.descriptors ++
          [{ data := { operation := .SEND, socket := sock, buffer := badRequestResponse },
             deletes := 0 }],
        inflight := w.inflight ++ [w.descriptors.length] } := by
  refine ⟨process_dotdot files sock request h, ?_, ?_⟩
  · rw [process_dotdot files sock request h, process_dotdot other sock request h]
  · simp [World.ProcessHttpRequest, process_dotdot files sock request h, World.PostSend,
      World.read, World.alloc, World.issue]

/-- Witness of C15: the request `GET /../secret HTTP/1.1`, with and without an
`index.html`. -/
theorem C15_dotdot_bad_request_witness :
    (HttpParser.new.parse "GET /../secret HTTP/1.1\r\n\r\n".toList).1 = .SUCCESS ∧
    IocpServer.ProcessHttpRequest (onlyIndex "hi".toList) 5
        (HttpParser.new.parse "GET /../secret HTTP/1.1\r\n\r\n".toList).2.request =
      some { operation := .SEND, socket := 5, buffer := badRequestResponse } ∧
    IocpServer.ProcessHttpRequest (fun _ => none) 5
        (HttpParser.new.parse "GET /../secret HTTP/1.1\r\n\r\n".toList).2.request =
      IocpServer.ProcessHttpRequest (onlyIndex "hi".toList) 5
        (HttpParser.new.parse "GET /../secret HTTP/1.1\r\n\r\n".toList).2.request :=
  ⟨by decide,
   (C15_dotdot_bad_request (onlyIndex "hi".toList) (fun _ => none) 5
      (HttpParser.new.parse "GET /../secret HTTP/1.1\r\n\r\n".toList).2.request
      (World.Initialize 5) (by decide)).1,
   (C15_dotdot_bad_request (onlyIndex "hi".toList) (fun _ => none) 5
      (HttpParser.new.parse "GET /../secret HTTP/1.1\r\n\r\n".toList).2.request
      (World.Initialize 5) (by decide)).2.1⟩

set_option maxRecDepth 100000 in
/-- C16 (the code at the failing input): the request `GET  HTTP/1.1` with an empty
URI parses to `SUCCESS`; `path.substr(1)` on the empty path throws, so
`ProcessHttpRequest` does not return, whatever the files, and the exception
leaves `HandleRecv` on the worker thread. -/
theorem C16_empty_uri_throws :
    (HttpParser.new.parse "GET  HTTP/1.1\r\n\r\n".toList).1 = .SUCCESS ∧
    (HttpParser.new.parse "GET  HTTP/1.1\r\n\r\n".toList).2.request.uri = [] ∧
    substr1 [] = none ∧
    (∀ files : FileSystem, IocpServer.ProcessHttpRequest files 5
      (HttpParser.new.parse "GET  HTTP/1.1\r\n\r\n".toList).2.request = none) ∧
    (World.Initialize 5).run (onlyIndex "hi".toList)
      [(0, Env.good [] 6), (1, Env.good "GET  HTTP/1.1\r\n\r\n".toList 0)] =
        .fault .exception := by
  refine ⟨by decide, by decide, by decide, ?_, by decide⟩
  intro files
  have huri : (HttpParser.new.parse "GET  HTTP/1.1\r\n\r\n".toList).2.request.uri = [] := by
    decide
  simp only [IocpServer.ProcessHttpRequest, huri]
  rfl

/-! ## The receive completion handler -/

theorem read_alloc_self (w : World) (d : PerIoData) :
    (w.alloc d).1.read (w.alloc d).2 = some d := by
  simp [World.alloc, World.read]

theorem read_alloc_old (w : World) (d : PerIoData) (p : Ptr) (h : w.read p ≠ none) :
    (w.alloc d).1.read p = w.read p := by
  unfold World.read at h ⊢
  cases hc : w.descriptors[p]? with
  | none => simp [hc] at h
  | some cell =>
    have hlt : p < w.descriptors.length := (List.getElem?_eq_some_iff.mp hc).1
    simp [World.alloc, List.getElem?_append_left hlt, hc]

theorem pendingRecv_server (w : World) (client : ClientContext) (socket : SOCKET) :
    (w.pendingRecv client socket).1.server = w.server ∧
    (w.pendingRecv client socket).1.inflight = w.inflight ∧
    (w.pendingRecv client socket).1.responses = w.responses := by
  unfold World.pendingRecv
  cases client.pending_recv with
  | some p => exact ⟨rfl, rfl, rfl⟩
  | none => simp [World.alloc, World.responses, PerIoData.new]

theorem pendingRecv_read (w : World) (client : ClientContext) (socket : SOCKET)
    (hpend : ∀ p, client.pending_recv = some p → w.read p ≠ none) :
    (w.pendingRecv client socket).1.read (w.pendingRecv client socket).2 ≠ none := by
  unfold World.pendingRecv
  cases hc : client.pending_recv with
  | some p => exact hpend p hc
  | none => simp [read_alloc_self]

theorem deleteAt_data (cells : List Descriptor) (p : Ptr) :
    (deleteAt cells p).map (fun cell => cell.data) = cells.map (fun cell => cell.data) := by
  induction cells generalizing p with
  | nil => rfl
  | cons cell rest ih =>
    cases p with
    | zero => rfl
    | succ q => simp [deleteAt, ih]

/-- With `WSARecv` accepted and the pending descriptor readable, the second half
of `HandleRecv` returns this world. -/
theorem rearm_returns (w : World) (client : ClientContext) (socket : SOCKET) (kept : Bytes)
    (recvData : Ptr) (hpend : ∀ p, client.pending_recv = some p → w.read p ≠ none) :
    w.rearm client socket kept recvData true =
      .ok ((((w.pendingRecv client socket).1.setClient socket
        { partial_request := kept, pending_recv := some (w.pendingRecv client socket).2 }).issue
          (w.pendingRecv client socket).2).delete recvData) := by
  have h := pendingRecv_read w client socket hpend
  unfold World.rearm World.PostRecv
  have hread : ((w.pendingRecv client socket).1.setClient socket
      { partial_request := kept, pending_recv := some (w.pendingRecv client socket).2 }).read
        (w.pendingRecv client socket).2 =
      (w.pendingRecv client socket).1.read (w.pendingRecv client socket).2 := rfl
  simp only [hread]
  cases hc : (w.pendingRecv client socket).1.read (w.pendingRecv client socket).2 with
  | none => exact absurd hc h
  | some d => simp

theorem PostRecv_locked_ok (w w1 : World) (p : Ptr) (posted : Bool)
    (h : w.PostRecv p posted true = .ok w1) : w1 = w.issue p := by
  unfold World.PostRecv at h
  cases hr : w.read p with
  | none => simp [hr] at h
  | some d =>
    cases posted with
    | true => simpa [hr, eq_comm] using h
    | false => simp [hr] at h

theorem PostSend_locked_ok (w w1 : World) (p : Ptr) (posted : Bool)
    (h : w.PostSend p posted true = .ok w1) : w1 = w.issue p := by
  unfold World.PostSend at h
  cases hr : w.read p with
  | none => simp [hr] at h
  | some d =>
    cases posted with
    | true => simpa [hr, eq_comm] using h
    | false => simp [hr] at h

/-- Whenever the second half of `HandleRecv` returns, it left the wheel and the
timeout-id map alone. -/
theorem rearm_keeps_timer (w w1 : World) (client : ClientContext) (socket : SOCKET)
    (kept : Bytes) (recvData : Ptr) (recvPosted : Bool)
    (h : w.rearm client socket kept recvData recvPosted = .ok w1) :
    w1.server.timer_ = w.server.timer_ ∧ w1.server.timeout_ids_ = w.server.timeout_ids_ := by
  have hs := (pendingRecv_server w client socket).1
  unfold World.rearm at h
  simp only at h
  cases hpr : World.PostRecv ((w.pendingRecv client socket).1.setClient socket
      { partial_request := kept, pending_recv := some (w.pendingRecv client socket).2 })
      (w.pendingRecv client socket).2 recvPosted true with
  | fault f => simp [hpr] at h
  | ok w3 =>
    rw [hpr] at h
    simp only [Outcome.ok.injEq] at h
    subst h
    rw [PostRecv_locked_ok _ _ _ _ hpr]
    simp [World.delete, World.issue, World.setClient, hs]

/-- Whenever the dispatch inside `HandleRecv` returns, the server is as before. -/
theorem process_keeps_server (w w1 : World) (files : FileSystem) (socket : SOCKET)
    (request : HttpRequest) (sendPosted : Bool)
    (h : w.ProcessHttpRequest files socket request sendPosted = .ok w1) :
    w1.server = w.server := by
  unfold World.ProcessHttpRequest at h
  cases hp : IocpServer.ProcessHttpRequest files socket request with
  | none => simp [hp] at h
  | some sd =>
    simp only [hp] at h
    rw [PostSend_locked_ok _ _ _ _ h]
    rfl

/-- With the system calls accepted, the descriptors readable and no exception in
the dispatch, `HandleRecv` returns. -/
theorem HandleRecv_returns (w : World) (files : FileSystem) (recvData : Ptr) (data : Bytes)
    (rd : PerIoData) (hread : w.read recvData = some rd) (hdata : data ≠ [])
    (hpend : ∀ p, (clientAt w.server.clients_ rd.socket).pending_recv = some p → w.read p ≠ none)
    (hdisp : (HttpParser.new.parse
        ((clientAt w.server.clients_ rd.socket).partial_request ++ data)).1 = .SUCCESS →
      IocpServer.ProcessHttpRequest files rd.socket (HttpParser.new.parse
        ((clientAt w.server.clients_ rd.socket).partial_request ++ data)).2.request ≠ none) :
    ∃ w1, w.HandleRecv files recvData data true true = .ok w1 := by
  have hlen : data.length ≠ 0 := by simpa using hdata
  unfold World.HandleRecv
  simp only [hread, hlen, if_false]
  split_ifs with hs
  · cases hp : IocpServer.ProcessHttpRequest files rd.socket (HttpParser.new.parse
        ((clientAt w.server.clients_ rd.socket).partial_request ++ data)).2.request with
    | none => exact absurd hp (hdisp hs)
    | some sd =>
      have hsend : w.ProcessHttpRequest files rd.socket (HttpParser.new.parse
          ((clientAt w.server.clients_ rd.socket).partial_request ++ data)).2.request true =
          .ok ((w.alloc sd).1.issue (w.alloc sd).2) := by
        simp [World.ProcessHttpRequest, hp, World.PostSend, read_alloc_self]
      rw [hsend]
      simp only
      rw [rearm_returns]
      · exact ⟨_, rfl⟩
      · intro p hpp
        have h1 := hpend p hpp
        have h2 : ((w.alloc sd).1.issue (w.alloc sd).2).read p = (w.alloc sd).1.read p := rfl
        rw [h2, read_alloc_old w sd p h1]
        exact h1
  · rw [rearm_returns _ _ _ _ _ hpend]
    exact ⟨_, rfl⟩

theorem acceptedWorld_pending :
    (clientAt acceptedWorld.server.clients_ 5).pending_recv = none := by decide

theorem findKey_clientAt_assign (clients : List (SOCKET × ClientContext)) (s : SOCKET)
    (c : ClientContext) : clientAt (assignKey clients s c) s = c := by
  simp [clientAt, findKey_assignKey_self]

/-! ## Claims on the receive completion -/

set_option maxRecDepth 100000 in
/-- C11 (as stated, refuted): after `Initialize` and the accept of socket 5, the
completion of a receive of one byte `G` leaves the wheel and the timeout-id map
as the accept left them (no task was cancelled, none added), the connection is
registered, and the tick that was due before the byte arrived still closes it. -/
theorem C11_byte_does_not_rearm :
    (((World.Initialize 5).run (onlyIndex "hi".toList)
        [(0, Env.good [] 6), (1, Env.good "G".toList 0)]).world?.map
        (fun w => (w.server.timer_, w.server.timeout_ids_))) =
      (((World.Initialize 5).run (onlyIndex "hi".toList) [(0, Env.good [] 6)]).world?.map
        (fun w => (w.server.timer_, w.server.timeout_ids_))) ∧
    (((World.Initialize 5).run (onlyIndex "hi".toList)
        [(0, Env.good [] 6), (1, Env.good "G".toList 0)]).world?.map
        (fun w => (w.server.registered 5, w.server.timerTick.registered 5))) =
      some (true, false) := by
  decide

/-- C11 (amended): for every connection and every receive completion with a
nonzero byte count, whenever `HandleRecv` returns the timer wheel and the
timeout-id map are as before the completion: the timeout task armed at accept
is neither cancelled nor re-armed, and stays due at the deadline set at accept.
`HandleRecv` does return when its system calls are accepted, the descriptors it
uses are not deleted and the dispatch throws nothing. -/
theorem C11_receive_keeps_timeout (w : World) (files : FileSystem) (recvData : Ptr)
    (data : Bytes) (sendPosted recvPosted : Bool) (hdata : data ≠ []) :
    (∀ w1, w.HandleRecv files recvData data sendPosted recvPosted = .ok w1 →
      w1.server.timer_ = w.server.timer_ ∧ w1.server.timeout_ids_ = w.server.timeout_ids_) ∧
    (∀ rd, w.read recvData = some rd →
      (∀ p, (clientAt w.server.clients_ rd.socket).pending_recv = some p → w.read p ≠ none) →
      ((HttpParser.new.parse
          ((clientAt w.server.clients_ rd.socket).partial_request ++ data)).1 = .SUCCESS →
        IocpServer.ProcessHttpRequest files rd.socket (HttpParser.new.parse
          ((clientAt w.server.clients_ rd.socket).partial_request ++ data)).2.request ≠ none) →
      ∃ w1, w.HandleRecv files recvData data true true = .ok w1) := by
  have hlen : data.length ≠ 0 := by simpa using hdata
  constructor
  · intro w1 h
    unfold World.HandleRecv at h
    cases hread : w.read recvData with
    | none => simp [hread] at h
    | some rd =>
      simp only [hread, hlen, if_false] at h
      split_ifs at h with hs
      · cases hp : w.ProcessHttpRequest files rd.socket (HttpParser.new.parse
            ((clientAt w.server.clients_ rd.socket).partial_request ++ data)).2.request
            sendPosted with
        | fault f => simp [hp] at h
        | ok w2 =>
          rw [hp] at h
          have hsame := process_keeps_server _ _ _ _ _ _ hp
          have hk := rearm_keeps_timer _ _ _ _ _ _ _ h
          rw [hsame] at hk
          exact hk
      · exact rearm_keeps_timer _ _ _ _ _ _ _ h
  · intro rd hread hpend hdisp
    exact HandleRecv_returns w files recvData data rd hread hdata hpend hdisp

set_option maxRecDepth 100000 in
/-- Witness of C11 (amended): the first receive on socket 5 delivers `G`. -/
theorem C11_receive_keeps_timeout_witness :
    (∀ w1, acceptedWorld.HandleRecv (onlyIndex "hi".toList) 1 "G".toList true true = .ok w1 →
      w1.server.timer_ = acceptedWorld.server.timer_ ∧
      w1.server.timeout_ids_ = acceptedWorld.server.timeout_ids_) ∧
    (∃ w1, acceptedWorld.HandleRecv (onlyIndex "hi".toList) 1 "G".toList true true = .ok w1) :=
  ⟨(C11_receive_keeps_timeout acceptedWorld (onlyIndex "hi".toList) 1 "G".toList true true
      (by decide)).1,
   (C11_receive_keeps_timeout acceptedWorld (onlyIndex "hi".toList) 1 "G".toList true true
      (by decide)).2 (PerIoData.new 5 .RECV) (by decide)
      (fun p hp => Option.noConfusion (acceptedWorld_pending.symm.trans hp)) (fun h => absurd h (by decide))⟩

set_option maxRecDepth 100000 in
/-- C13 (as stated, refuted): after `Initialize` and the accept of socket 5, the
receive of `X ` leaves a buffer that parses to `FAILED`, and its handler builds
no response at all: no send descriptor exists, only the re-armed receive is
outstanding on the socket. -/
theorem C13_failed_parse_no_400 :
    (HttpParser.new.parse "X ".toList).1 = .FAILED ∧
    (((World.Initialize 5).run (onlyIndex "hi".toList)
        [(0, Env.good [] 6), (1, Env.good "X ".toList 0)]).world?.map
        (fun w => (w.responses, w.outstanding .SEND 5, w.outstanding .RECV 5))) =
      some ([], 0, 1) := by
  decide

/-- C13 (amended): for every receive completion with a nonzero byte count after
which the accumulated buffer parses to `FAILED` (the descriptors used not being
deleted and `WSARecv` being accepted), `HandleRecv` returns having built no
response; the buffer is kept with the received bytes, the connection stays
registered, and a receive is re-armed on its pending descriptor. -/
theorem C13_failed_parse_keeps_alive (w : World) (files : FileSystem) (recvData : Ptr)
    (data : Bytes) (sendPosted : Bool) (rd : PerIoData)
    (hread : w.read recvData = some rd) (hdata : data ≠ [])
    (hpend : ∀ p, (clientAt w.server.clients_ rd.socket).pending_recv = some p → w.read p ≠ none)
    (hfail : (HttpParser.new.parse
      ((clientAt w.server.clients_ rd.socket).partial_request ++ data)).1 = .FAILED) :
    ∃ w1, w.HandleRecv files recvData data sendPosted true = .ok w1 ∧
      w1.responses = w.responses ∧
      w1.server.registered rd.socket = true ∧
      (clientAt w1.server.clients_ rd.socket).partial_request =
        (clientAt w.server.clients_ rd.socket).partial_request ++ data ∧
      ∃ p, (clientAt w1.server.clients_ rd.socket).pending_recv = some p ∧
        w1.inflight = w.inflight ++ [p] := by
  have hlen : data.length ≠ 0 := by simpa using hdata
  have hns : ¬ (HttpParser.new.parse
      ((clientAt w.server.clients_ rd.socket).partial_request ++ data)).1 = .SUCCESS := by
    rw [hfail]
    decide
  obtain ⟨hsrv, hinf, hresp⟩ := pendingRecv_server w (clientAt w.server.clients_ rd.socket) rd.socket
  have hrun : w.HandleRecv files recvData data sendPosted true = .ok
      ((((w.pendingRecv (clientAt w.server.clients_ rd.socket) rd.socket).1.setClient rd.socket
        { partial_request := (clientAt w.server.clients_ rd.socket).partial_request ++ data,
          pending_recv :=
            some (w.pendingRecv (clientAt w.server.clients_ rd.socket) rd.socket).2 }).issue
          (w.pendingRecv (clientAt w.server.clients_ rd.socket) rd.socket).2).delete
            recvData) := by
    unfold World.HandleRecv
    simp only [hread, hlen, if_false, hns]
    exact rearm_returns _ _ _ _ _ hpend
  refine ⟨_, hrun, ?_, ?_, ?_, ?_⟩
  · simp only [World.responses, World.delete, World.issue, World.setClient, deleteAt_data]
    exact hresp
  · simp [World.delete, World.issue, World.setClient, IocpServer.registered,
      findKey_assignKey_self]
  · simp [World.delete, World.issue, World.setClient, findKey_clientAt_assign]
  · exact ⟨(w.pendingRecv (clientAt w.server.clients_ rd.socket) rd.socket).2,
      by simp [World.delete, World.issue, World.setClient, findKey_clientAt_assign],
      by simp [World.delete, World.issue, World.setClient, hinf]⟩

set_option maxRecDepth 100000 in
/-- Witness of C13 (amended): the first receive on socket 5 delivers `X `. -/
theorem C13_failed_parse_keeps_alive_witness :
    ∃ w1, acceptedWorld.HandleRecv (onlyIndex "hi".toList) 1 "X ".toList true true = .ok w1 ∧
      w1.responses = acceptedWorld.responses ∧
      w1.server.registered 5 = true ∧
      (clientAt w1.server.clients_ 5).partial_request =
        (clientAt acceptedWorld.server.clients_ 5).partial_request ++ "X ".toList ∧
      ∃ p, (clientAt w1.server.clients_ 5).pending_recv = some p ∧
        w1.inflight = acceptedWorld.inflight ++ [p] :=
  C13_failed_parse_keeps_alive acceptedWorld (onlyIndex "hi".toList) 1 "X ".toList true
    (PerIoData.new 5 .RECV) (by decide) (by decide) (fun p hp => Option.noConfusion (acceptedWorld_pending.symm.trans hp))
    (by decide)

/-! ## Claims on the proactor protocol -/

set_option maxRecDepth 100000 in
/-- The world in which the receive handlers of the examples start is the one the
server reaches: `Initialize`, the accept of socket 5 handled, and the first
receive taken off the outstanding operations. -/
theorem acceptedWorld_reached :
    ((World.Initialize 5).run (onlyIndex "hi".toList) [(0, Env.good [] 6)]).world?.map
      (fun w => { w with inflight := w.inflight.erase 1 }) = some acceptedWorld := by
  decide

set_option maxRecDepth 100000 in
/-- C17 (the code at the failing input): after `Initialize` and the accept of
socket 5, the receive of `GET / HTTP/1.1` is handled: the response is sent and
a receive is issued at once, so a send and a receive are outstanding together
on socket 5; when the send completes, `HandleSend` issues one more receive, and
two receives are outstanding on socket 5. -/
theorem C17_two_receives_outstanding :
    (((World.Initialize 5).run (onlyIndex "hi".toList)
        [(0, Env.good [] 6), (1, Env.good "GET / HTTP/1.1\r\n\r\n".toList 0)]).world?.map
        (fun w => (w.outstanding .SEND 5, w.outstanding .RECV 5))) = some (1, 1) ∧
    (((World.Initialize 5).run (onlyIndex "hi".toList)
        [(0, Env.good [] 6), (1, Env.good "GET / HTTP/1.1\r\n\r\n".toList 0),
         (3, Env.good [] 0)]).world?.map
        (fun w => (w.outstanding .SEND 5, w.outstanding .RECV 5))) = some (0, 2) := by
  decide

set_option maxRecDepth 100000 in
/-- C18 (the code at the failing input): after `Initialize` and the accept of
socket 5, a first receive delivers `G` and a second one `E`. The second
completion is for the descriptor at address 3, the one `pending_recv` owns:
`HandleRecv` re-issues it and then deletes it, so it is outstanding, deleted,
and still owned by the `unique_ptr`. Its next completion is handled on deleted
memory, and tearing the connection down deletes it a second time. -/
theorem C18_pending_descriptor_reissued_and_deleted :
    (((World.Initialize 5).run (onlyIndex "hi".toList)
        [(0, Env.good [] 6), (1, Env.good "G".toList 0), (3, Env.good "E".toList 0)]).world?.map
        (fun w => (w.inflight, w.deletes 3, (clientAt w.server.clients_ 5).pending_recv))) =
      some ([2, 3], 1, some 3) ∧
    (World.Initialize 5).run (onlyIndex "hi".toList)
        [(0, Env.good [] 6), (1, Env.good "G".toList 0), (3, Env.good "E".toList 0),
         (3, Env.good "T".toList 0)] = .fault .dangling ∧
    (((World.Initialize 5).run (onlyIndex "hi".toList)
        [(0, Env.good [] 6), (1, Env.good "G".toList 0), (3, Env.good "E".toList 0)]).world?.map
        (fun w => (w.CloseClientSocket 5).deletes 3)) = some 2 := by
  decide

end WebServer
